import Mathlib

/-!
Verification of the lithophane mesh-generation core (`src/lithophane.rs`).

Modelling conventions:
* `f32` values are modelled as exact rationals (`ℚ`); the floating-point
  square root has no rational counterpart, so every function that normalizes
  a vector is parametrized by an abstract `sqrt : ℚ → ℚ`.  The real square
  root satisfies `sqrt q = 0 ↔ q = 0` on sums of squares, which is the only
  property the error paths depend on; theorems that need it take it as a
  hypothesis.
* `u32` arithmetic is modelled on `ℕ` with checked (panicking) overflow
  semantics: `step_iter_with_size` panics when `length = 0` or `step = 0`,
  exactly as the Rust code does for the inputs exercised here (for
  `step = 0` both debug and release builds panic inside `step_by`; for
  `length = 0, step = 1` release builds panic on the `v[v.len() - 2]`
  index instead of the `length - 1` overflow).
* A fallible Rust computation returning `Result<T, InvalidPointsError>` is
  modelled as `GenResult T`, with a third constructor for panics so that
  panicking and returning an error value stay distinguishable.
-/

/-- Vector type of `pk_stl::geometry::Vec3`, with `f32` components modelled
as exact rationals. -/
structure Vec3 where
  x : ℚ
  y : ℚ
  z : ℚ
deriving DecidableEq

def Vec3.zero : Vec3 := ⟨0, 0, 0⟩

instance : Sub Vec3 where
  sub a b := ⟨a.x - b.x, a.y - b.y, a.z - b.z⟩

instance : Add Vec3 where
  add a b := ⟨a.x + b.x, a.y + b.y, a.z + b.z⟩

/-- Scalar scaling `Vec3 * f32` used for the depth extrusion. -/
instance : HMul Vec3 ℚ Vec3 where
  hMul v s := ⟨v.x * s, v.y * s, v.z * s⟩

/-- Translation of `cross_product` (lithophane.rs, lines 295-297). -/
def cross_product (a b : Vec3) : Vec3 :=
  ⟨a.y * b.z - b.y * a.z, a.z * b.x - b.z * a.x, a.x * b.y - b.x * a.y⟩

/-- Triangle of `pk_stl::geometry`, a face normal plus three vertices. -/
structure Triangle where
  normal : Vec3
  vertices : List Vec3
deriving DecidableEq

/-- Output model of `pk_stl::StlModel`. -/
structure StlModel where
  header : String
  triangles : List Triangle
deriving DecidableEq

/-- Decoded 8-bit grayscale raster (`image::GrayImage`): explicit dimensions
plus a pixel lookup `get_pixel x y`.  Out-of-bounds lookups panic in Rust but
are never performed by the code paths modelled here, so the lookup is total. -/
structure GrayImage where
  width : Nat
  height : Nat
  get_pixel : Nat → Nat → Nat

/-- Result of a fallible generation step.  `invalidPoints` models
`Err(InvalidPointsError)`, `panicked` models a Rust panic. -/
inductive GenResult (α : Type) where
  | ok (a : α)
  | invalidPoints
  | panicked
deriving DecidableEq

def GenResult.bind {α β : Type} : GenResult α → (α → GenResult β) → GenResult β
  | .ok a, f => f a
  | .invalidPoints, _ => .invalidPoints
  | .panicked, _ => .panicked

/-- Effectful map over a list, short-circuiting on the first failure, in
evaluation order; models a Rust `for` loop pushing `f a?` results. -/
def mapRes {α β : Type} (f : α → GenResult β) : List α → GenResult (List β)
  | [] => .ok []
  | a :: l => (f a).bind fun b => (mapRes f l).bind fun bs => .ok (b :: bs)

/-- Translation of `normalize_to_unit_vector` (lines 300-307): fails exactly
when the computed length is zero. -/
def normalize_to_unit_vector (sqrt : ℚ → ℚ) (v : Vec3) : GenResult Vec3 :=
  let length := sqrt (v.x * v.x + v.y * v.y + v.z * v.z)
  if length = 0 then .invalidPoints
  else .ok ⟨v.x / length, v.y / length, v.z / length⟩

/-- Translation of `three_points_to_triangle` (lines 288-293). -/
def three_points_to_triangle (sqrt : ℚ → ℚ) (p0 p1 p2 : Vec3) : GenResult Triangle :=
  (normalize_to_unit_vector sqrt (cross_product (p1 - p0) (p2 - p0))).bind fun n =>
  .ok { normal := n, vertices := [p0, p1, p2] }

/-- Number of elements produced by the Rust iterator
`(-step..length).step_by(step)`. -/
def steppedCount (length step : Nat) : Nat := (length + 2 * step - 1) / step

/-- Elements of `(-step..length).step_by(step)`: the arithmetic sequence
starting at `-step`, advancing by `step`, of every value below `length`. -/
def steppedPart (length step : Nat) : List Int :=
  (List.range (steppedCount length step)).map fun (k : Nat) => (k : Int) * step - step

/-- Translation of `step_iter_with_size` (lines 94-108).  `length = 0` or
`step = 0` makes the Rust function panic (checked `u32` underflow /
`step_by(0)`), modelled by `panicked`. -/
def step_iter_with_size (length step : Nat) : GenResult (List Int) :=
  if length = 0 ∨ step = 0 then .panicked
  else
    let v := steppedPart length step
    let v := if (length - 1) % step ≠ 0 then v ++ [(length : Int) - 1] else v
    .ok (v ++ [((length : Int) - 1) * 2 - v.getD (v.length - 2) 0])

/-- Type of the three coordinate functions `Fn(f32, f32, f32, f32) -> f32`. -/
abbrev CoordFn := ℚ → ℚ → ℚ → ℚ → ℚ

/-- Row-major index pairs `(y, x)` of a nested
`for y in 0..rows { for x in 0..cols { .. } }` loop. -/
def idxPairs (rows cols : Nat) : List (Nat × Nat) :=
  (List.range rows).flatMap fun y => (List.range cols).map fun x => (y, x)

/-- Bordered vertex grid (lines 115-123): evaluate the coordinate functions
at every index pair of the two per-axis sequences, row-major. -/
def buildVertices (x_fn y_fn z_fn : CoordFn) (width height : Nat)
    (width_range height_range : List Int) : List Vec3 :=
  height_range.flatMap fun (y_i : Int) => width_range.map fun (x_i : Int) =>
    ⟨x_fn (x_i : ℚ) (y_i : ℚ) (width : ℚ) (height : ℚ),
     y_fn (x_i : ℚ) (y_i : ℚ) (width : ℚ) (height : ℚ),
     z_fn (x_i : ℚ) (y_i : ℚ) (width : ℚ) (height : ℚ)⟩

/-- Normal estimation for the interior vertex at interior position
`(x_i, y_i)` of the bordered grid (lines 131-140). -/
def normalAt (sqrt : ℚ → ℚ) (vertices : List Vec3) (ewc : Nat) (y_i x_i : Nat) :
    GenResult Vec3 :=
  let v := vertices.getD ((y_i + 1) * ewc + 1 + x_i) Vec3.zero
  (normalize_to_unit_vector sqrt (cross_product
      (vertices.getD ((y_i + 2) * ewc + 1 + x_i) Vec3.zero - v)
      (vertices.getD ((y_i + 1) * ewc + 2 + x_i) Vec3.zero - v))).bind fun norm1 =>
  (normalize_to_unit_vector sqrt (cross_product
      (vertices.getD (y_i * ewc + 1 + x_i) Vec3.zero - v)
      (vertices.getD ((y_i + 1) * ewc + x_i) Vec3.zero - v))).bind fun norm2 =>
  normalize_to_unit_vector sqrt (norm1 + norm2)

/-- The normals loop of `generate_point_cloud` (lines 129-142): one normal
per interior grid vertex, row-major. -/
def computeNormals (sqrt : ℚ → ℚ) (vertices : List Vec3) (ewc ehc : Nat) :
    GenResult (List Vec3) :=
  mapRes (fun p => normalAt sqrt vertices ewc p.1 p.2) (idxPairs (ehc - 2) (ewc - 2))

/-- Border-stripping predicate of `generate_point_cloud` (lines 148-153) on
the flat index of the bordered grid: not in the first or last row, not in
the first or last column. -/
def interiorPred (ewc ehc : Nat) (i : Nat) : Bool :=
  decide (ewc ≤ i ∧ i < ewc * (ehc - 1) ∧ i % ewc ≠ 0 ∧ i % ewc ≠ ewc - 1)

/-- Border-stripping filter of `generate_point_cloud` (lines 145-155):
enumerate the bordered vertices, keep the interior flat indices, drop the
indices again. -/
def interiorFilter (vertices : List Vec3) (ewc ehc : Nat) : List Vec3 :=
  (vertices.enum.filter fun p => interiorPred ewc ehc p.1).map Prod.snd

/-- Point cloud: border-stripped vertices plus one normal per vertex. -/
structure PointCloud where
  vertices : List Vec3
  vertex_normals : List Vec3
  width : Nat
  height : Nat
deriving DecidableEq

/-- Translation of `generate_point_cloud` (lines 74-160). -/
def generate_point_cloud (sqrt : ℚ → ℚ) (x_fn y_fn z_fn : CoordFn)
    (width height step : Nat) : GenResult PointCloud :=
  (step_iter_with_size width step).bind fun width_range =>
  (step_iter_with_size height step).bind fun height_range =>
  let ewc := width_range.length
  let ehc := height_range.length
  let vertices := buildVertices x_fn y_fn z_fn width height width_range height_range
  (computeNormals sqrt vertices ewc ehc).bind fun normals =>
  .ok { vertices := interiorFilter vertices ewc ehc
        vertex_normals := normals
        width := ewc - 2
        height := ehc - 2 }

/-- Pixel depth closure of `generate_lithophane_mesh` (line 197). -/
def get_px_depth (white_depth black_depth : ℚ) (gray_value : Nat) : ℚ :=
  white_depth + ((255 - gray_value : Nat) : ℚ) / 255 * (black_depth - white_depth)

/-- Extruded pixel vertices (lines 198-202): each point-cloud vertex moved
along its normal by the pixel's depth. -/
def px_vertices (point_cloud : PointCloud) (image : GrayImage)
    (white_depth black_depth : ℚ) : List Vec3 :=
  (List.range (point_cloud.width * point_cloud.height)).map fun i =>
    point_cloud.vertices.getD i Vec3.zero +
      point_cloud.vertex_normals.getD i Vec3.zero *
        get_px_depth white_depth black_depth
          (image.get_pixel (i % image.width) (i / image.width))

/-- The two backing-mesh triangles of one 2x2 block (lines 183-192). -/
def backing_block (sqrt : ℚ → ℚ) (verts : List Vec3) (width y_i x_i : Nat) :
    GenResult (Triangle × Triangle) :=
  (three_points_to_triangle sqrt
      (verts.getD (y_i * width + x_i) Vec3.zero)
      (verts.getD ((y_i + 1) * width + x_i + 1) Vec3.zero)
      (verts.getD ((y_i + 1) * width + x_i) Vec3.zero)).bind fun t1 =>
  (three_points_to_triangle sqrt
      (verts.getD (y_i * width + x_i) Vec3.zero)
      (verts.getD (y_i * width + x_i + 1) Vec3.zero)
      (verts.getD ((y_i + 1) * width + x_i + 1) Vec3.zero)).bind fun t2 =>
  .ok (t1, t2)

/-- The two front-mesh triangles of one 2x2 block of extruded vertices
(lines 207-216). -/
def front_block (sqrt : ℚ → ℚ) (pxv : List Vec3) (width y_i x_i : Nat) :
    GenResult (Triangle × Triangle) :=
  (three_points_to_triangle sqrt
      (pxv.getD (y_i * width + x_i) Vec3.zero)
      (pxv.getD ((y_i + 1) * width + x_i) Vec3.zero)
      (pxv.getD ((y_i + 1) * width + x_i + 1) Vec3.zero)).bind fun t1 =>
  (three_points_to_triangle sqrt
      (pxv.getD (y_i * width + x_i) Vec3.zero)
      (pxv.getD ((y_i + 1) * width + x_i + 1) Vec3.zero)
      (pxv.getD (y_i * width + x_i + 1) Vec3.zero)).bind fun t2 =>
  .ok (t1, t2)

/-- The two wall triangles connecting top-row pixel `x_i` to the backing
mesh (lines 221-232). -/
def top_block (sqrt : ℚ → ℚ) (verts pxv : List Vec3) (x_i : Nat) :
    GenResult (Triangle × Triangle) :=
  (three_points_to_triangle sqrt
      (verts.getD x_i Vec3.zero) (pxv.getD x_i Vec3.zero)
      (pxv.getD (x_i + 1) Vec3.zero)).bind fun t1 =>
  (three_points_to_triangle sqrt
      (verts.getD x_i Vec3.zero) (pxv.getD (x_i + 1) Vec3.zero)
      (verts.getD (x_i + 1) Vec3.zero)).bind fun t2 =>
  .ok (t1, t2)

/-- The two wall triangles for bottom-row flat index `x_i` (lines 235-246). -/
def bottom_block (sqrt : ℚ → ℚ) (verts pxv : List Vec3) (x_i : Nat) :
    GenResult (Triangle × Triangle) :=
  (three_points_to_triangle sqrt
      (verts.getD x_i Vec3.zero) (pxv.getD (x_i + 1) Vec3.zero)
      (pxv.getD x_i Vec3.zero)).bind fun t1 =>
  (three_points_to_triangle sqrt
      (verts.getD x_i Vec3.zero) (verts.getD (x_i + 1) Vec3.zero)
      (pxv.getD (x_i + 1) Vec3.zero)).bind fun t2 =>
  .ok (t1, t2)

/-- The two wall triangles for left-column row `y_i` (lines 249-262). -/
def left_block (sqrt : ℚ → ℚ) (verts pxv : List Vec3) (width y_i : Nat) :
    GenResult (Triangle × Triangle) :=
  let current_index := y_i * width
  let lower_index := (y_i + 1) * width
  (three_points_to_triangle sqrt
      (verts.getD current_index Vec3.zero) (verts.getD lower_index Vec3.zero)
      (pxv.getD lower_index Vec3.zero)).bind fun t1 =>
  (three_points_to_triangle sqrt
      (verts.getD current_index Vec3.zero) (pxv.getD lower_index Vec3.zero)
      (pxv.getD current_index Vec3.zero)).bind fun t2 =>
  .ok (t1, t2)

/-- The two wall triangles for right-column row `y_i` (lines 265-278). -/
def right_block (sqrt : ℚ → ℚ) (verts pxv : List Vec3) (width y_i : Nat) :
    GenResult (Triangle × Triangle) :=
  let current_index := (y_i + 1) * width - 1
  let lower_index := (y_i + 2) * width - 1
  (three_points_to_triangle sqrt
      (verts.getD current_index Vec3.zero) (pxv.getD lower_index Vec3.zero)
      (verts.getD lower_index Vec3.zero)).bind fun t1 =>
  (three_points_to_triangle sqrt
      (verts.getD current_index Vec3.zero) (pxv.getD current_index Vec3.zero)
      (pxv.getD lower_index Vec3.zero)).bind fun t2 =>
  .ok (t1, t2)

/-- Flatten a list of triangle pairs in push order. -/
def flat2 : List (Triangle × Triangle) → List Triangle
  | [] => []
  | (a, b) :: l => a :: b :: flat2 l

/-- A loop that pushes two triangles per index, aborting on the first
failing triangle construction. -/
def blocks2 {α : Type} (idx : List α) (f : α → GenResult (Triangle × Triangle)) :
    GenResult (List Triangle) :=
  (mapRes f idx).bind fun l => .ok (flat2 l)

/-- Translation of `generate_lithophane_mesh` (lines 162-281): backing mesh,
extruded front mesh, then the four connecting side walls, concatenated in
push order. -/
def generate_lithophane_mesh (sqrt : ℚ → ℚ) (point_cloud : PointCloud)
    (image : GrayImage) (white_depth black_depth : ℚ) : GenResult (List Triangle) :=
  let width := point_cloud.width
  let height := point_cloud.height
  (blocks2 (idxPairs (height - 1) (width - 1))
      (fun p => backing_block sqrt point_cloud.vertices width p.1 p.2)).bind fun backing =>
  let pxv := px_vertices point_cloud image white_depth black_depth
  (blocks2 (idxPairs (height - 1) (width - 1))
      (fun p => front_block sqrt pxv width p.1 p.2)).bind fun front =>
  (blocks2 (List.range (width - 1))
      (fun x => top_block sqrt point_cloud.vertices pxv x)).bind fun top =>
  (blocks2 (List.range' ((height - 1) * width) (height * width - 1 - (height - 1) * width))
      (fun x => bottom_block sqrt point_cloud.vertices pxv x)).bind fun bottom =>
  (blocks2 (List.range (height - 1))
      (fun y => left_block sqrt point_cloud.vertices pxv width y)).bind fun left =>
  (blocks2 (List.range (height - 1))
      (fun y => right_block sqrt point_cloud.vertices pxv width y)).bind fun right =>
  .ok (backing ++ front ++ top ++ bottom ++ left ++ right)

/-- Translation of `generate_lithophane` (lines 9-23). -/
def generate_lithophane (sqrt : ℚ → ℚ) (x_fn y_fn z_fn : CoordFn)
    (image : GrayImage) (white_depth black_depth : ℚ) : GenResult StlModel :=
  (generate_point_cloud sqrt x_fn y_fn z_fn image.width image.height 1).bind fun point_cloud =>
  (generate_lithophane_mesh sqrt point_cloud image white_depth black_depth).bind fun mesh =>
  .ok { header := "", triangles := mesh }

/-- The two preview triangles of one 2x2 block (lines 47-56). -/
def preview_block (sqrt : ℚ → ℚ) (verts : List Vec3) (width y_i x_i : Nat) :
    GenResult (Triangle × Triangle) :=
  (three_points_to_triangle sqrt
      (verts.getD (y_i * width + x_i) Vec3.zero)
      (verts.getD ((y_i + 1) * width + x_i) Vec3.zero)
      (verts.getD ((y_i + 1) * width + x_i + 1) Vec3.zero)).bind fun t1 =>
  (three_points_to_triangle sqrt
      (verts.getD (y_i * width + x_i) Vec3.zero)
      (verts.getD ((y_i + 1) * width + x_i + 1) Vec3.zero)
      (verts.getD (y_i * width + x_i + 1) Vec3.zero)).bind fun t2 =>
  .ok (t1, t2)

/-- Translation of `generate_preview` (lines 27-63). -/
def generate_preview (sqrt : ℚ → ℚ) (x_fn y_fn z_fn : CoordFn)
    (width height step : Nat) : GenResult StlModel :=
  (generate_point_cloud sqrt x_fn y_fn z_fn width height step).bind fun point_cloud =>
  (blocks2 (idxPairs (point_cloud.height - 1) (point_cloud.width - 1))
      (fun p => preview_block sqrt point_cloud.vertices point_cloud.width p.1 p.2)).bind
    fun triangles =>
  .ok { header := "", triangles := triangles }

/-- Observes a generation result as an optional triangle count. -/
def triCount (r : GenResult StlModel) : Option Nat :=
  match r with
  | .ok m => some m.triangles.length
  | _ => none

/-- Abstract square root used to instantiate witnesses: it only needs to
vanish exactly on zero, which is all the error paths inspect. -/
def sqrtW (q : ℚ) : ℚ := if q = 0 then 0 else 1

theorem GenResult.bind_eq_ok {α β : Type} {x : GenResult α} {f : α → GenResult β} {c : β}
    (h : x.bind f = .ok c) : ∃ a, x = .ok a ∧ f a = .ok c := by
  cases x with
  | ok a => exact ⟨a, rfl, h⟩
  | invalidPoints => simp [GenResult.bind] at h
  | panicked => simp [GenResult.bind] at h

theorem GenResult.bind_ne_panicked {α β : Type} {x : GenResult α} {f : α → GenResult β}
    (hx : x ≠ .panicked) (hf : ∀ a, f a ≠ .panicked) : x.bind f ≠ .panicked := by
  cases x with
  | ok a => exact hf a
  | invalidPoints => simp [GenResult.bind]
  | panicked => exact absurd rfl hx

theorem mapRes_ok_length {α β : Type} {f : α → GenResult β} {l : List α} {r : List β}
    (h : mapRes f l = .ok r) : r.length = l.length := by
  induction l generalizing r with
  | nil => simp [mapRes] at h; simp [← h]
  | cons a t ih =>
    simp only [mapRes] at h
    obtain ⟨b, hb, h2⟩ := GenResult.bind_eq_ok h
    obtain ⟨bs, hbs, h3⟩ := GenResult.bind_eq_ok h2
    cases h3
    simp [ih hbs]

theorem mapRes_ok_getD {α β : Type} {f : α → GenResult β} {l : List α} {r : List β}
    (h : mapRes f l = .ok r) (dα : α) (dβ : β) :
    ∀ i, i < l.length → f (l.getD i dα) = .ok (r.getD i dβ) := by
  induction l generalizing r with
  | nil => intro i hi; simp at hi
  | cons a t ih =>
    simp only [mapRes] at h
    obtain ⟨b, hb, h2⟩ := GenResult.bind_eq_ok h
    obtain ⟨bs, hbs, h3⟩ := GenResult.bind_eq_ok h2
    cases h3
    intro i hi
    cases i with
    | zero => simpa using hb
    | succ j =>
      simp only [List.getD_cons_succ]
      exact ih hbs j (by simpa using hi)

theorem mapRes_ne_panicked {α β : Type} {f : α → GenResult β} {l : List α}
    (h : ∀ a ∈ l, f a ≠ .panicked) : mapRes f l ≠ .panicked := by
  induction l with
  | nil => simp [mapRes]
  | cons a t ih =>
    simp only [mapRes]
    refine GenResult.bind_ne_panicked (h a (by simp)) fun b => ?_
    refine GenResult.bind_ne_panicked (ih fun x hx => h x (by simp [hx])) fun bs => ?_
    simp

theorem mapRes_invalid_iff {α β : Type} {f : α → GenResult β} {l : List α}
    (h : ∀ a ∈ l, f a ≠ .panicked) :
    mapRes f l = .invalidPoints ↔ ∃ a ∈ l, f a = .invalidPoints := by
  induction l with
  | nil => simp [mapRes]
  | cons a t ih =>
    have ht : ∀ x ∈ t, f x ≠ .panicked := fun x hx => h x (by simp [hx])
    constructor
    · intro hinv
      simp only [mapRes] at hinv
      cases hfa : f a with
      | ok b =>
        rw [hfa] at hinv
        simp only [GenResult.bind] at hinv
        cases hmt : mapRes f t with
        | ok bs => rw [hmt] at hinv; simp [GenResult.bind] at hinv
        | invalidPoints =>
          obtain ⟨x, hx, hfx⟩ := (ih ht).mp hmt
          exact ⟨x, by simp [hx], hfx⟩
        | panicked => exact absurd hmt (mapRes_ne_panicked ht)
      | invalidPoints => exact ⟨a, by simp, hfa⟩
      | panicked => exact absurd hfa (h a (by simp))
    · rintro ⟨x, hx, hfx⟩
      rcases List.mem_cons.mp hx with rfl | hxt
      · simp [mapRes, hfx, GenResult.bind]
      · simp only [mapRes]
        cases hfa : f a with
        | ok b => simp [GenResult.bind, (ih ht).mpr ⟨x, hxt, hfx⟩]
        | invalidPoints => simp [GenResult.bind]
        | panicked => exact absurd hfa (h a (by simp))

theorem flat2_length (l : List (Triangle × Triangle)) : (flat2 l).length = 2 * l.length := by
  induction l with
  | nil => simp [flat2]
  | cons p t ih => cases p; simp [flat2, ih]; ring

theorem blocks2_ok_length {α : Type} {idx : List α} {f : α → GenResult (Triangle × Triangle)}
    {r : List Triangle} (h : blocks2 idx f = .ok r) : r.length = 2 * idx.length := by
  obtain ⟨l, hl, h2⟩ := GenResult.bind_eq_ok h
  cases h2
  rw [flat2_length, mapRes_ok_length hl]

theorem blocks2_ne_panicked {α : Type} {idx : List α} {f : α → GenResult (Triangle × Triangle)}
    (h : ∀ a ∈ idx, f a ≠ .panicked) : blocks2 idx f ≠ .panicked := by
  unfold blocks2
  exact GenResult.bind_ne_panicked (mapRes_ne_panicked h) (by simp)

theorem blocks2_invalid_iff {α : Type} {idx : List α} {f : α → GenResult (Triangle × Triangle)}
    (h : ∀ a ∈ idx, f a ≠ .panicked) :
    blocks2 idx f = .invalidPoints ↔ ∃ a ∈ idx, f a = .invalidPoints := by
  unfold blocks2
  rw [← mapRes_invalid_iff h]
  cases hm : mapRes f idx <;> simp [GenResult.bind]

theorem blocks2_nil {α : Type} (f : α → GenResult (Triangle × Triangle)) :
    blocks2 [] f = .ok [] := rfl

theorem normalize_ne_panicked (sqrt : ℚ → ℚ) (v : Vec3) :
    normalize_to_unit_vector sqrt v ≠ .panicked := by
  simp only [normalize_to_unit_vector]
  split <;> simp

theorem three_points_ne_panicked (sqrt : ℚ → ℚ) (p0 p1 p2 : Vec3) :
    three_points_to_triangle sqrt p0 p1 p2 ≠ .panicked := by
  unfold three_points_to_triangle
  exact GenResult.bind_ne_panicked
    (normalize_ne_panicked sqrt (cross_product (p1 - p0) (p2 - p0))) (by simp)

theorem sumsq_eq_zero_iff (v : Vec3) :
    v.x * v.x + v.y * v.y + v.z * v.z = 0 ↔ v = Vec3.zero := by
  cases v with
  | mk x y z =>
    simp only [Vec3.zero, Vec3.mk.injEq]
    constructor
    · intro h
      refine ⟨?_, ?_, ?_⟩ <;> nlinarith [mul_self_nonneg x, mul_self_nonneg y, mul_self_nonneg z]
    · rintro ⟨rfl, rfl, rfl⟩; ring

theorem normalize_invalid_iff {sqrt : ℚ → ℚ} (hsqrt : ∀ q, sqrt q = 0 ↔ q = 0) (v : Vec3) :
    normalize_to_unit_vector sqrt v = .invalidPoints ↔ v = Vec3.zero := by
  simp only [normalize_to_unit_vector]
  rw [← sumsq_eq_zero_iff v, ← hsqrt (v.x * v.x + v.y * v.y + v.z * v.z)]
  split <;> simp_all

theorem normalize_ok_iff {sqrt : ℚ → ℚ} (hsqrt : ∀ q, sqrt q = 0 ↔ q = 0) (v : Vec3) :
    (∃ w, normalize_to_unit_vector sqrt v = .ok w) ↔ v ≠ Vec3.zero := by
  rw [Ne, ← normalize_invalid_iff hsqrt v]
  cases h : normalize_to_unit_vector sqrt v with
  | ok w => simp [h]
  | invalidPoints => simp
  | panicked => exact absurd h (normalize_ne_panicked sqrt v)

theorem getD_mem {α : Type} {l : List α} {i : Nat} (h : i < l.length) (d : α) :
    l.getD i d ∈ l := by
  rw [List.getD_eq_getElem l d h]
  exact List.getElem_mem h

theorem steppedPart_length (L S : Nat) : (steppedPart L S).length = steppedCount L S := by
  unfold steppedPart
  rw [List.length_map, List.length_range]

theorem steppedPart_getD (L S : Nat) {i : Nat} (hi : i < steppedCount L S) :
    (steppedPart L S).getD i 0 = (i : Int) * S - S := by
  have h : i < (steppedPart L S).length := by rw [steppedPart_length]; exact hi
  rw [List.getD_eq_getElem _ _ h]
  simp only [steppedPart, List.getElem_map, List.getElem_range]

theorem steppedCount_bounds (L S : Nat) (hL : 1 ≤ L) (hS : 1 ≤ S) :
    L + S ≤ S * steppedCount L S ∧ S * steppedCount L S ≤ L + 2 * S - 1 := by
  have h1 := Nat.div_add_mod (L + 2 * S - 1) S
  have h2 : (L + 2 * S - 1) % S < S := Nat.mod_lt _ (by omega)
  unfold steppedCount
  set q := (L + 2 * S - 1) / S with hq
  set a := S * q with ha
  omega

theorem two_le_steppedCount (L S : Nat) (hL : 1 ≤ L) (hS : 1 ≤ S) :
    2 ≤ steppedCount L S := by
  obtain ⟨h1, _⟩ := steppedCount_bounds L S hL hS
  by_contra h
  push_neg at h
  have : S * steppedCount L S ≤ S * 1 := Nat.mul_le_mul_left S (by omega)
  omega

theorem steppedPart_val_lt (L S : Nat) (hL : 1 ≤ L) (hS : 1 ≤ S) {i : Nat}
    (hi : i < steppedCount L S) : (i : Int) * S - S < L := by
  obtain ⟨_, h2⟩ := steppedCount_bounds L S hL hS
  have h3 : (i + 1) * S ≤ steppedCount L S * S := Nat.mul_le_mul_right S hi
  have h4 : (i + 1) * S ≤ L + 2 * S - 1 := le_trans h3 (by rw [Nat.mul_comm]; exact h2)
  have h5 : ((i + 1) * S : Int) ≤ (L : Int) + 2 * S - 1 := by
    have := Int.ofNat_le.mpr h4
    push_cast at this ⊢
    omega
  push_cast at h5
  linarith

theorem steppedCount_max (L S : Nat) (hL : 1 ≤ L) (hS : 1 ≤ S) :
    (L : Int) ≤ (steppedCount L S : Int) * S - S := by
  obtain ⟨h1, _⟩ := steppedCount_bounds L S hL hS
  have h5 : ((L + S : Nat) : Int) ≤ ((S * steppedCount L S : Nat) : Int) := Int.ofNat_le.mpr h1
  push_cast at h5
  linarith

/-- The last element of the stepped iterator lands exactly on `length - 1`
precisely when `step` divides `length - 1`; this aligns the code's
`(length - 1) % step != 0` test with the spec's description. -/
theorem landed_iff (L S : Nat) (hL : 1 ≤ L) (hS : 1 ≤ S) :
    (steppedCount L S : Int) * S - 2 * S = (L : Int) - 1 ↔ (L - 1) % S = 0 := by
  obtain ⟨h1, h2⟩ := steppedCount_bounds L S hL hS
  have hq2 := two_le_steppedCount L S hL hS
  constructor
  · intro heq
    have hNat : steppedCount L S * S = L - 1 + 2 * S := by
      have hL1 : ((L - 1 : Nat) : Int) = (L : Int) - 1 := by
        push_cast [Nat.cast_sub hL]; ring
      have : (steppedCount L S : Int) * S = ((L - 1 : Nat) : Int) + 2 * S := by
        rw [hL1]; linarith
      exact_mod_cast this
    have : L - 1 = (steppedCount L S - 2) * S := by
      have h3 : (steppedCount L S - 2) * S + 2 * S = steppedCount L S * S := by
        have : steppedCount L S - 2 + 2 = steppedCount L S := by omega
        calc (steppedCount L S - 2) * S + 2 * S = (steppedCount L S - 2 + 2) * S := by ring
          _ = steppedCount L S * S := by rw [this]
      omega
    rw [this]
    exact Nat.mul_mod_left _ _
  · intro h0
    have hdm := Nat.div_add_mod (L - 1) S
    rw [h0, Nat.add_zero] at hdm
    set k := (L - 1) / S with hk
    have hA : S * steppedCount L S ≤ S * (k + 2) := by
      calc S * steppedCount L S ≤ L + 2 * S - 1 := h2
        _ = S * k + 2 * S := by omega
        _ = S * (k + 2) := by ring
    have hB : S * (k + 1) < S * steppedCount L S := by
      calc S * (k + 1) = S * k + S := by ring
        _ < L + S := by omega
        _ ≤ S * steppedCount L S := h1
    have hle : steppedCount L S ≤ k + 2 := Nat.le_of_mul_le_mul_left hA (by omega)
    have hlt : k + 1 < steppedCount L S := Nat.lt_of_mul_lt_mul_left hB
    have hqk : steppedCount L S = k + 2 := by omega
    have hSk : (S : Int) * k = (L : Int) - 1 := by
      have : ((S * k : Nat) : Int) = ((L - 1 : Nat) : Int) := by rw [hdm]
      rw [Nat.cast_mul, Nat.cast_sub hL] at this
      push_cast at this
      linarith
    rw [hqk]
    push_cast
    linarith


/-- C1: for every `length L ≥ 1` and `step S ≥ 1`, the per-axis index
sequence starts at `-S` and advances by `S` while remaining below `L`
(elements `i*S - S` for `i < n`, with the next stepped value at least `L`),
appends `L-1` exactly when the last stepped index missed `L-1`, and finally
appends the mirror `2*(L-1) - second_to_last` (the element that, in the
final sequence, sits two before the end); consequently the sequence has
`L-1` as its second-to-last element (hence contains it) and its tail is
symmetric around `L-1`; for `L = 15, S = 4` it is exactly
`[-4, 0, 4, 8, 12, 14, 16]`. -/
theorem claim_C1_step_index_sequence (L S : Nat) (hL : 1 ≤ L) (hS : 1 ≤ S) :
    ∃ (s : List Int) (n : Nat),
      step_iter_with_size L S = .ok s ∧
      2 ≤ n ∧
      (∀ i, i < n → s.getD i 0 = (i : Int) * S - S) ∧
      (∀ i, i < n → s.getD i 0 < L) ∧
      (L : Int) ≤ (n : Int) * S - S ∧
      (s.getD (n - 1) 0 = (L : Int) - 1 → s.length = n + 1) ∧
      (s.getD (n - 1) 0 ≠ (L : Int) - 1 → s.length = n + 2 ∧ s.getD n 0 = (L : Int) - 1) ∧
      s.getD (s.length - 2) 0 = (L : Int) - 1 ∧
      ((L : Int) - 1) ∈ s ∧
      s.getLast? = some (((L : Int) - 1) * 2 - s.getD (s.length - 3) 0) ∧
      step_iter_with_size 15 4 = .ok [-4, 0, 4, 8, 12, 14, 16] := by
  have hq2 := two_le_steppedCount L S hL hS
  set q := steppedCount L S with hqdef
  have hlenP : (steppedPart L S).length = q := steppedPart_length L S
  have hcast : ((q - 1 : Nat) : Int) = (q : Int) - 1 := by
    push_cast [Nat.cast_sub (show 1 ≤ q by omega)]; ring
  have hPq1 : (steppedPart L S).getD (q - 1) 0 = (q : Int) * S - 2 * S := by
    rw [steppedPart_getD L S (show q - 1 < q by omega), hcast]; ring
  by_cases hc : (L - 1) % S = 0
  · -- the stepped part lands exactly on L-1
    have hland : (q : Int) * S - 2 * S = (L : Int) - 1 := (landed_iff L S hL hS).mpr hc
    obtain ⟨m, hm, hstep⟩ : ∃ m, m = ((L : Int) - 1) * 2 -
        (steppedPart L S).getD ((steppedPart L S).length - 2) 0 ∧
        step_iter_with_size L S = .ok (steppedPart L S ++ [m]) := by
      refine ⟨_, rfl, ?_⟩
      unfold step_iter_with_size
      rw [if_neg (show ¬(L = 0 ∨ S = 0) by omega)]
      simp only [hc, ne_eq, not_true_eq_false, if_false]
    have hslen : (steppedPart L S ++ [m]).length = q + 1 := by simp [hlenP]
    have hsndlast : (steppedPart L S ++ [m]).getD ((steppedPart L S ++ [m]).length - 2) 0 =
        (L : Int) - 1 := by
      rw [hslen, show q + 1 - 2 = q - 1 from by omega,
        List.getD_append _ _ _ _ (by omega), hPq1, hland]
    refine ⟨_, q, hstep, hq2, ?_, ?_, steppedCount_max L S hL hS, ?_, ?_, hsndlast, ?_, ?_,
      by decide⟩
    · intro i hi
      rw [List.getD_append _ _ _ _ (by omega), steppedPart_getD L S (by rwa [← hqdef])]
    · intro i hi
      rw [List.getD_append _ _ _ _ (by omega), steppedPart_getD L S (by rwa [← hqdef])]
      exact steppedPart_val_lt L S hL hS (by rwa [← hqdef])
    · intro _; exact hslen
    · intro hne
      exact absurd (by rw [List.getD_append _ _ _ _ (by omega), hPq1, hland]) hne
    · have : (L : Int) - 1 ∈ steppedPart L S := by
        have h1 := getD_mem (show q - 1 < (steppedPart L S).length by omega) (0 : Int)
        rw [hPq1, hland] at h1
        exact h1
      exact List.mem_append.mpr (Or.inl this)
    · rw [List.getLast?_concat, hslen, show q + 1 - 3 = q - 2 from by omega,
        List.getD_append _ _ _ _ (by omega), hm, hlenP]
  · -- the stepped part misses L-1, so L-1 is pushed before the mirror
    have hmiss : (q : Int) * S - 2 * S ≠ (L : Int) - 1 := fun h =>
      hc ((landed_iff L S hL hS).mp h)
    have hv1len : (steppedPart L S ++ [(L : Int) - 1]).length = q + 1 := by simp [hlenP]
    obtain ⟨m, hm, hstep⟩ : ∃ m, m = ((L : Int) - 1) * 2 -
        (steppedPart L S ++ [(L : Int) - 1]).getD
          ((steppedPart L S ++ [(L : Int) - 1]).length - 2) 0 ∧
        step_iter_with_size L S =
          .ok ((steppedPart L S ++ [(L : Int) - 1]) ++ [m]) := by
      refine ⟨_, rfl, ?_⟩
      unfold step_iter_with_size
      rw [if_neg (show ¬(L = 0 ∨ S = 0) by omega)]
      simp only [hc, ne_eq, not_false_eq_true, if_true, ite_true]
    have hv1get : (steppedPart L S ++ [(L : Int) - 1]).getD
        ((steppedPart L S ++ [(L : Int) - 1]).length - 2) 0 = (q : Int) * S - 2 * S := by
      rw [hv1len, show q + 1 - 2 = q - 1 from by omega,
        List.getD_append _ _ _ _ (by omega), hPq1]
    have hslen : ((steppedPart L S ++ [(L : Int) - 1]) ++ [m]).length = q + 2 := by
      simp [hlenP]
    have hgetq : ((steppedPart L S ++ [(L : Int) - 1]) ++ [m]).getD q 0 = (L : Int) - 1 := by
      rw [List.getD_append _ _ _ _ (by omega), List.getD_append_right _ _ _ _ (by omega)]
      simp [hlenP]
    refine ⟨_, q, hstep, hq2, ?_, ?_, steppedCount_max L S hL hS, ?_, fun _ => ⟨hslen, hgetq⟩,
      ?_, ?_, ?_, by decide⟩
    · intro i hi
      rw [List.getD_append _ _ _ _ (by omega), List.getD_append _ _ _ _ (by omega),
        steppedPart_getD L S (by rwa [← hqdef])]
    · intro i hi
      rw [List.getD_append _ _ _ _ (by omega), List.getD_append _ _ _ _ (by omega),
        steppedPart_getD L S (by rwa [← hqdef])]
      exact steppedPart_val_lt L S hL hS (by rwa [← hqdef])
    · intro habs
      rw [List.getD_append _ _ _ _ (by omega), List.getD_append _ _ _ _ (by omega), hPq1]
        at habs
      exact absurd habs hmiss
    · rw [hslen, show q + 2 - 2 = q from by omega]
      exact hgetq
    · exact List.mem_append.mpr (Or.inl (List.mem_append.mpr (Or.inr (by simp))))
    · rw [List.getLast?_concat, hslen, show q + 2 - 3 = q - 1 from by omega,
        List.getD_append _ _ _ _ (by omega), List.getD_append _ _ _ _ (by omega), hPq1,
        hm, hv1get]

/-- Witness for C1 at the documented example `length = 15`, `step = 4`. -/
theorem claim_C1_witness :
    1 ≤ 15 ∧ 1 ≤ 4 ∧ step_iter_with_size 15 4 = .ok [-4, 0, 4, 8, 12, 14, 16] := by
  obtain ⟨s, n, h⟩ := claim_C1_step_index_sequence 15 4 (by decide) (by decide)
  exact ⟨by decide, by decide, h.2.2.2.2.2.2.2.2.2.2⟩

theorem sqrtW_spec : ∀ q : ℚ, sqrtW q = 0 ↔ q = 0 := by
  intro q
  simp only [sqrtW]
  split <;> simp_all

/-- Computation rule for Vec3 subtraction. -/
theorem Vec3.sub_def (a b : Vec3) : a - b = ⟨a.x - b.x, a.y - b.y, a.z - b.z⟩ := rfl

/-- Computation rule for Vec3 addition. -/
theorem Vec3.add_def (a b : Vec3) : a + b = ⟨a.x + b.x, a.y + b.y, a.z + b.z⟩ := rfl

/-- Computation rule for Vec3 scalar scaling. -/
theorem Vec3.smul_def (v : Vec3) (s : ℚ) : v * s = ⟨v.x * s, v.y * s, v.z * s⟩ := rfl

/-- C10: the public preview entry point does not validate `step ≥ 1`: with
`step = 0` the index-sequence construction panics (`step_by(0)`), and the
panic propagates through `generate_point_cloud` and `generate_preview`
rather than being returned as an error value. -/
theorem claim_C10_step_zero_panics (sqrt : ℚ → ℚ) (x_fn y_fn z_fn : CoordFn)
    (W H : Nat) (hW : 1 ≤ W) (hH : 1 ≤ H) :
    step_iter_with_size W 0 = .panicked ∧
    generate_point_cloud sqrt x_fn y_fn z_fn W H 0 = .panicked ∧
    generate_preview sqrt x_fn y_fn z_fn W H 0 = .panicked := by
  have h1 : step_iter_with_size W 0 = .panicked := by
    unfold step_iter_with_size
    rw [if_pos (Or.inr rfl)]
  have h2 : generate_point_cloud sqrt x_fn y_fn z_fn W H 0 = .panicked := by
    unfold generate_point_cloud
    rw [h1]
    rfl
  refine ⟨h1, h2, ?_⟩
  unfold generate_preview
  rw [h2]
  rfl

/-- Witness for C10 at `width = height = 1`. -/
theorem claim_C10_witness :
    generate_preview sqrtW (fun _ _ _ _ => 0) (fun _ _ _ _ => 0) (fun _ _ _ _ => 0)
      1 1 0 = .panicked :=
  (claim_C10_step_zero_panics sqrtW _ _ _ 1 1 (by decide) (by decide)).2.2

/-- C6: the triangle builder returns normal `normalize(cross(p1-p0, p2-p0))`
with vertices `[p0, p1, p2]`, and fails with the degenerate-geometry error
exactly when that cross product has zero magnitude; in particular the
collinear points `(0,0,0), (1,0,0), (2,0,0)` raise the error.  It never
panics. -/
theorem claim_C6_triangle_builder (sqrt : ℚ → ℚ) (hsqrt : ∀ q, sqrt q = 0 ↔ q = 0)
    (p0 p1 p2 : Vec3) :
    (three_points_to_triangle sqrt p0 p1 p2 = .invalidPoints ↔
      cross_product (p1 - p0) (p2 - p0) = Vec3.zero) ∧
    (∀ t, three_points_to_triangle sqrt p0 p1 p2 = .ok t →
      normalize_to_unit_vector sqrt (cross_product (p1 - p0) (p2 - p0)) = .ok t.normal ∧
      t.vertices = [p0, p1, p2]) ∧
    three_points_to_triangle sqrt ⟨0, 0, 0⟩ ⟨1, 0, 0⟩ ⟨2, 0, 0⟩ = .invalidPoints ∧
    three_points_to_triangle sqrt p0 p1 p2 ≠ .panicked := by
  have key : ∀ a b c : Vec3, three_points_to_triangle sqrt a b c = .invalidPoints ↔
      cross_product (b - a) (c - a) = Vec3.zero := by
    intro a b c
    unfold three_points_to_triangle
    rw [← normalize_invalid_iff hsqrt (cross_product (b - a) (c - a))]
    cases h : normalize_to_unit_vector sqrt (cross_product (b - a) (c - a)) with
    | ok w => simp [GenResult.bind]
    | invalidPoints => simp [GenResult.bind]
    | panicked => exact absurd h (normalize_ne_panicked sqrt (cross_product (b - a) (c - a)))
  refine ⟨key p0 p1 p2, ?_, ?_, three_points_ne_panicked sqrt p0 p1 p2⟩
  · intro t ht
    unfold three_points_to_triangle at ht
    obtain ⟨n, hn, hok⟩ := GenResult.bind_eq_ok ht
    cases hok
    exact ⟨hn, rfl⟩
  · refine (key _ _ _).mpr ?_
    simp [Vec3.sub_def, cross_product, Vec3.zero]

/-- Witness for C6 at the collinear example. -/
theorem claim_C6_witness :
    three_points_to_triangle sqrtW ⟨0, 0, 0⟩ ⟨1, 0, 0⟩ ⟨2, 0, 0⟩ = .invalidPoints :=
  (claim_C6_triangle_builder sqrtW sqrtW_spec ⟨0, 0, 0⟩ ⟨1, 0, 0⟩ ⟨2, 0, 0⟩).2.2.1

theorem idxPairs_length (r c : Nat) : (idxPairs r c).length = r * c := by
  induction r with
  | zero => simp [idxPairs]
  | succ n ih =>
    unfold idxPairs at ih ⊢
    rw [List.range_succ, List.flatMap_append]
    simp only [List.length_append, ih, List.flatMap_cons, List.flatMap_nil,
      List.append_nil, List.length_map, List.length_range]
    ring

theorem idxPairs_succ (r c : Nat) :
    idxPairs (r + 1) c = idxPairs r c ++ (List.range c).map fun x => (r, x) := by
  unfold idxPairs
  rw [List.range_succ, List.flatMap_append]
  simp

theorem mem_idxPairs {r c : Nat} {p : Nat × Nat} :
    p ∈ idxPairs r c ↔ p.1 < r ∧ p.2 < c := by
  cases p with
  | mk y x =>
    unfold idxPairs
    simp only [List.mem_flatMap, List.mem_map, List.mem_range, Prod.mk.injEq]
    constructor
    · rintro ⟨a, ha, b, hb, rfl, rfl⟩
      exact ⟨ha, hb⟩
    · rintro ⟨hy, hx⟩
      exact ⟨y, hy, x, hx, rfl, rfl⟩

theorem idxPairs_getD {r c y x : Nat} (hy : y < r) (hx : x < c) :
    (idxPairs r c).getD (y * c + x) (0, 0) = (y, x) := by
  induction r with
  | zero => omega
  | succ n ih =>
    rw [idxPairs_succ]
    rcases Nat.lt_or_ge y n with h | h
    · rw [List.getD_append _ _ _ _ ?_]
      · exact ih h
      · rw [idxPairs_length]
        calc y * c + x < y * c + c := by omega
          _ = (y + 1) * c := by ring
          _ ≤ n * c := Nat.mul_le_mul_right c (by omega)
    · have hy' : y = n := by omega
      subst hy'
      rw [List.getD_append_right _ _ _ _ (by rw [idxPairs_length]; exact Nat.le_add_right _ _)]
      rw [idxPairs_length, show y * c + x - y * c = x from by omega]
      have hlt : x < ((List.range c).map fun i => (y, i)).length := by
        rw [List.length_map, List.length_range]; exact hx
      rw [List.getD_eq_getElem _ _ hlt]
      simp

theorem mul_add_lt_mul {y x r c : Nat} (hy : y < r) (hx : x < c) : y * c + x < r * c := by
  calc y * c + x < y * c + c := by omega
    _ = (y + 1) * c := by ring
    _ ≤ r * c := Nat.mul_le_mul_right c hy

theorem normalAt_ne_panicked (sqrt : ℚ → ℚ) (vertices : List Vec3) (ewc y x : Nat) :
    normalAt sqrt vertices ewc y x ≠ .panicked := by
  simp only [normalAt]
  refine GenResult.bind_ne_panicked (normalize_ne_panicked _ _) fun n1 => ?_
  refine GenResult.bind_ne_panicked (normalize_ne_panicked _ _) fun n2 => ?_
  exact normalize_ne_panicked _ _

/-- Failure analysis of the two-cross-products-then-average normal scheme:
it reports invalid points exactly when one of the cross products is the
zero vector or the two successfully normalized estimates cancel. -/
theorem normalize_pair_invalid_iff {sqrt : ℚ → ℚ} (hsqrt : ∀ q, sqrt q = 0 ↔ q = 0)
    (a b : Vec3) :
    ((normalize_to_unit_vector sqrt a).bind fun norm1 =>
      (normalize_to_unit_vector sqrt b).bind fun norm2 =>
        normalize_to_unit_vector sqrt (norm1 + norm2)) = .invalidPoints ↔
    (a = Vec3.zero ∨ b = Vec3.zero ∨
      ∃ n1 n2, normalize_to_unit_vector sqrt a = .ok n1 ∧
        normalize_to_unit_vector sqrt b = .ok n2 ∧ n1 + n2 = Vec3.zero) := by
  cases h1 : normalize_to_unit_vector sqrt a with
  | panicked => exact absurd h1 (normalize_ne_panicked sqrt a)
  | invalidPoints =>
    have hz : a = Vec3.zero := (normalize_invalid_iff hsqrt a).mp h1
    simp [GenResult.bind, hz]
  | ok n1 =>
    have ha : a ≠ Vec3.zero := by
      intro hz
      rw [(normalize_invalid_iff hsqrt a).mpr hz] at h1
      cases h1
    cases h2 : normalize_to_unit_vector sqrt b with
    | panicked => exact absurd h2 (normalize_ne_panicked sqrt b)
    | invalidPoints =>
      have hzb : b = Vec3.zero := (normalize_invalid_iff hsqrt b).mp h2
      simp [GenResult.bind, hzb]
    | ok n2 =>
      have hb : b ≠ Vec3.zero := by
        intro hz
        rw [(normalize_invalid_iff hsqrt b).mpr hz] at h2
        cases h2
      simp only [GenResult.bind]
      rw [normalize_invalid_iff hsqrt (n1 + n2)]
      simp [ha, hb]

/-- C4: over a bordered grid of extended dimensions `ewc × ehc` (both at
least 2), the normal estimator yields exactly `(ewc-2) * (ehc-2)` normals;
the normal stored at row-major interior index `(y, x)` is
`normalize(normalize(cross(below, right)) + normalize(cross(above, left)))`
for the four border-difference vectors around the interior vertex; and it
fails with the degenerate-geometry error exactly when some interior
position has a zero cross product or exactly cancelling normalized
estimates.  It never panics. -/
theorem claim_C4_normal_estimator (sqrt : ℚ → ℚ) (hsqrt : ∀ q, sqrt q = 0 ↔ q = 0)
    (vertices : List Vec3) (ewc ehc : Nat) (hewc : 2 ≤ ewc) (hehc : 2 ≤ ehc) :
    (∀ ns, computeNormals sqrt vertices ewc ehc = .ok ns →
      ns.length = (ewc - 2) * (ehc - 2) ∧
      ∀ y x, y < ehc - 2 → x < ewc - 2 →
        ∃ n1 n2,
          normalize_to_unit_vector sqrt (cross_product
            (vertices.getD ((y + 2) * ewc + 1 + x) Vec3.zero -
              vertices.getD ((y + 1) * ewc + 1 + x) Vec3.zero)
            (vertices.getD ((y + 1) * ewc + 2 + x) Vec3.zero -
              vertices.getD ((y + 1) * ewc + 1 + x) Vec3.zero)) = .ok n1 ∧
          normalize_to_unit_vector sqrt (cross_product
            (vertices.getD (y * ewc + 1 + x) Vec3.zero -
              vertices.getD ((y + 1) * ewc + 1 + x) Vec3.zero)
            (vertices.getD ((y + 1) * ewc + x) Vec3.zero -
              vertices.getD ((y + 1) * ewc + 1 + x) Vec3.zero)) = .ok n2 ∧
          normalize_to_unit_vector sqrt (n1 + n2) =
            .ok (ns.getD (y * (ewc - 2) + x) Vec3.zero)) ∧
    computeNormals sqrt vertices ewc ehc ≠ .panicked ∧
    (computeNormals sqrt vertices ewc ehc = .invalidPoints ↔
      ∃ y x, y < ehc - 2 ∧ x < ewc - 2 ∧
        (cross_product
            (vertices.getD ((y + 2) * ewc + 1 + x) Vec3.zero -
              vertices.getD ((y + 1) * ewc + 1 + x) Vec3.zero)
            (vertices.getD ((y + 1) * ewc + 2 + x) Vec3.zero -
              vertices.getD ((y + 1) * ewc + 1 + x) Vec3.zero) = Vec3.zero ∨
         cross_product
            (vertices.getD (y * ewc + 1 + x) Vec3.zero -
              vertices.getD ((y + 1) * ewc + 1 + x) Vec3.zero)
            (vertices.getD ((y + 1) * ewc + x) Vec3.zero -
              vertices.getD ((y + 1) * ewc + 1 + x) Vec3.zero) = Vec3.zero ∨
         ∃ n1 n2,
           normalize_to_unit_vector sqrt (cross_product
             (vertices.getD ((y + 2) * ewc + 1 + x) Vec3.zero -
               vertices.getD ((y + 1) * ewc + 1 + x) Vec3.zero)
             (vertices.getD ((y + 1) * ewc + 2 + x) Vec3.zero -
               vertices.getD ((y + 1) * ewc + 1 + x) Vec3.zero)) = .ok n1 ∧
           normalize_to_unit_vector sqrt (cross_product
             (vertices.getD (y * ewc + 1 + x) Vec3.zero -
               vertices.getD ((y + 1) * ewc + 1 + x) Vec3.zero)
             (vertices.getD ((y + 1) * ewc + x) Vec3.zero -
               vertices.getD ((y + 1) * ewc + 1 + x) Vec3.zero)) = .ok n2 ∧
           n1 + n2 = Vec3.zero)) := by
  have hpan : ∀ p ∈ idxPairs (ehc - 2) (ewc - 2),
      normalAt sqrt vertices ewc p.1 p.2 ≠ GenResult.panicked := fun p _ =>
    normalAt_ne_panicked sqrt vertices ewc p.1 p.2
  refine ⟨?_, mapRes_ne_panicked hpan, ?_⟩
  · intro ns hok
    have hlen : ns.length = (ewc - 2) * (ehc - 2) := by
      rw [mapRes_ok_length hok, idxPairs_length, Nat.mul_comm]
    refine ⟨hlen, ?_⟩
    intro y x hy hx
    have hidx : y * (ewc - 2) + x < (idxPairs (ehc - 2) (ewc - 2)).length := by
      rw [idxPairs_length]
      exact mul_add_lt_mul hy hx
    have h := mapRes_ok_getD hok (0, 0) Vec3.zero (y * (ewc - 2) + x) hidx
    rw [idxPairs_getD hy hx] at h
    simp only [normalAt] at h
    obtain ⟨n1, hn1, h2⟩ := GenResult.bind_eq_ok h
    obtain ⟨n2, hn2, h3⟩ := GenResult.bind_eq_ok h2
    exact ⟨n1, n2, hn1, hn2, h3⟩
  · rw [show computeNormals sqrt vertices ewc ehc =
      mapRes (fun p => normalAt sqrt vertices ewc p.1 p.2) (idxPairs (ehc - 2) (ewc - 2))
      from rfl, mapRes_invalid_iff hpan]
    constructor
    · rintro ⟨⟨y, x⟩, hmem, hP⟩
      obtain ⟨hy, hx⟩ := mem_idxPairs.mp hmem
      have := (normalize_pair_invalid_iff hsqrt _ _).mp (by simpa only [normalAt] using hP)
      exact ⟨y, x, hy, hx, this⟩
    · rintro ⟨y, x, hy, hx, hdis⟩
      refine ⟨(y, x), mem_idxPairs.mpr ⟨hy, hx⟩, ?_⟩
      simp only [normalAt]
      exact (normalize_pair_invalid_iff hsqrt _ _).mpr hdis

/-- Witness for C4: on a constant 3x3 grid every cross product vanishes, so
the estimator reports the degenerate-geometry error. -/
theorem claim_C4_witness :
    computeNormals sqrtW
      [Vec3.zero, Vec3.zero, Vec3.zero, Vec3.zero, Vec3.zero, Vec3.zero,
       Vec3.zero, Vec3.zero, Vec3.zero] 3 3 = .invalidPoints :=
  (claim_C4_normal_estimator sqrtW sqrtW_spec _ 3 3 (by decide) (by decide)).2.2.mpr
    ⟨0, 0, by decide, by decide, Or.inl (by
      norm_num [List.getD_cons_succ, List.getD_cons_zero, Vec3.sub_def, cross_product,
        Vec3.zero])⟩

/-- C5: pixel depth is `white_depth + (255 - g)/255 * (black_depth -
white_depth)`, the extruded vertex is `vertex + normal * depth`, and the
boundary intensities map exactly to the two depth parameters (exact
arithmetic; `f32` is modelled as `ℚ`). -/
theorem claim_C5_depth_extrusion (point_cloud : PointCloud) (image : GrayImage)
    (white_depth black_depth : ℚ) :
    (∀ g : Nat, g ≤ 255 →
      get_px_depth white_depth black_depth g =
        white_depth + ((255 : ℚ) - g) / 255 * (black_depth - white_depth)) ∧
    get_px_depth white_depth black_depth 255 = white_depth ∧
    get_px_depth white_depth black_depth 0 = black_depth ∧
    (∀ i, i < point_cloud.width * point_cloud.height →
      (px_vertices point_cloud image white_depth black_depth).getD i Vec3.zero =
        point_cloud.vertices.getD i Vec3.zero +
          point_cloud.vertex_normals.getD i Vec3.zero *
            get_px_depth white_depth black_depth
              (image.get_pixel (i % image.width) (i / image.width))) := by
  refine ⟨?_, ?_, ?_, ?_⟩
  · intro g hg
    unfold get_px_depth
    rw [Nat.cast_sub hg]
    norm_num
  · norm_num [get_px_depth]
  · simp only [get_px_depth, Nat.sub_zero, Nat.cast_ofNat]
    field_simp
  · intro i hi
    have hlen : i < (px_vertices point_cloud image white_depth black_depth).length := by
      unfold px_vertices
      rw [List.length_map, List.length_range]
      exact hi
    rw [List.getD_eq_getElem _ _ hlen]
    simp [px_vertices]

/-- Witness for C5 on a one-pixel black image with depths 1 and 3. -/
theorem claim_C5_witness :
    get_px_depth 1 3 255 = 1 ∧ get_px_depth 1 3 0 = 3 ∧
    (px_vertices (PointCloud.mk [Vec3.zero] [⟨0, 0, 1⟩] 1 1)
        (GrayImage.mk 1 1 fun _ _ => 0) 1 3).getD 0 Vec3.zero = ⟨0, 0, 3⟩ := by
  have h := claim_C5_depth_extrusion (PointCloud.mk [Vec3.zero] [⟨0, 0, 1⟩] 1 1)
    (GrayImage.mk 1 1 fun _ _ => 0) 1 3
  refine ⟨h.2.1, h.2.2.1, ?_⟩
  have h4 := h.2.2.2 0 (by decide)
  rw [h4, h.2.2.1]
  norm_num [Vec3.add_def, Vec3.smul_def, Vec3.zero]

theorem three_points_ok_vertices {sqrt : ℚ → ℚ} {a b c : Vec3} {t : Triangle}
    (h : three_points_to_triangle sqrt a b c = .ok t) : t.vertices = [a, b, c] := by
  unfold three_points_to_triangle at h
  obtain ⟨n, _, hok⟩ := GenResult.bind_eq_ok h
  cases hok
  rfl

/-- C7: for every 2x2 block, the two front-mesh triangles traverse the
block's extruded vertices in the winding obtained from the corresponding
backing-mesh triangles by reversing orientation: each front index triple
is, up to cyclic rotation, the reverse of the backing index triple over the
same block. -/
theorem claim_C7_mirrored_winding (sqrt : ℚ → ℚ) (raw pxv : List Vec3) (w y x : Nat) :
    (∀ t1 t2 u1 u2,
      backing_block sqrt raw w y x = .ok (t1, t2) →
      front_block sqrt pxv w y x = .ok (u1, u2) →
      t1.vertices = [raw.getD (y * w + x) Vec3.zero,
                     raw.getD ((y + 1) * w + x + 1) Vec3.zero,
                     raw.getD ((y + 1) * w + x) Vec3.zero] ∧
      u1.vertices = [pxv.getD (y * w + x) Vec3.zero,
                     pxv.getD ((y + 1) * w + x) Vec3.zero,
                     pxv.getD ((y + 1) * w + x + 1) Vec3.zero] ∧
      t2.vertices = [raw.getD (y * w + x) Vec3.zero,
                     raw.getD (y * w + x + 1) Vec3.zero,
                     raw.getD ((y + 1) * w + x + 1) Vec3.zero] ∧
      u2.vertices = [pxv.getD (y * w + x) Vec3.zero,
                     pxv.getD ((y + 1) * w + x + 1) Vec3.zero,
                     pxv.getD (y * w + x + 1) Vec3.zero]) ∧
    [y * w + x, (y + 1) * w + x, (y + 1) * w + x + 1] ∈
      [[y * w + x, (y + 1) * w + x + 1, (y + 1) * w + x].reverse,
       [y * w + x, (y + 1) * w + x + 1, (y + 1) * w + x].reverse.rotate 1,
       [y * w + x, (y + 1) * w + x + 1, (y + 1) * w + x].reverse.rotate 2] ∧
    [y * w + x, (y + 1) * w + x + 1, y * w + x + 1] ∈
      [[y * w + x, y * w + x + 1, (y + 1) * w + x + 1].reverse,
       [y * w + x, y * w + x + 1, (y + 1) * w + x + 1].reverse.rotate 1,
       [y * w + x, y * w + x + 1, (y + 1) * w + x + 1].reverse.rotate 2] := by
  refine ⟨?_, by simp [List.rotate], by simp [List.rotate]⟩
  intro t1 t2 u1 u2 hb hf
  unfold backing_block at hb
  obtain ⟨s1, hs1, hb2⟩ := GenResult.bind_eq_ok hb
  obtain ⟨s2, hs2, hb3⟩ := GenResult.bind_eq_ok hb2
  cases hb3
  unfold front_block at hf
  obtain ⟨v1, hv1, hf2⟩ := GenResult.bind_eq_ok hf
  obtain ⟨v2, hv2, hf3⟩ := GenResult.bind_eq_ok hf2
  cases hf3
  exact ⟨three_points_ok_vertices hs1, three_points_ok_vertices hv1,
    three_points_ok_vertices hs2, three_points_ok_vertices hv2⟩

/-- Witness for C7 on a unit square block extruded by one unit. -/
theorem claim_C7_witness :
    backing_block sqrtW [⟨0, 0, 0⟩, ⟨1, 0, 0⟩, ⟨0, 1, 0⟩, ⟨1, 1, 0⟩] 2 0 0 =
      .ok (Triangle.mk ⟨0, 0, 1⟩ [⟨0, 0, 0⟩, ⟨1, 1, 0⟩, ⟨0, 1, 0⟩],
           Triangle.mk ⟨0, 0, 1⟩ [⟨0, 0, 0⟩, ⟨1, 0, 0⟩, ⟨1, 1, 0⟩]) ∧
    front_block sqrtW [⟨0, 0, 1⟩, ⟨1, 0, 1⟩, ⟨0, 1, 1⟩, ⟨1, 1, 1⟩] 2 0 0 =
      .ok (Triangle.mk ⟨0, 0, -1⟩ [⟨0, 0, 1⟩, ⟨0, 1, 1⟩, ⟨1, 1, 1⟩],
           Triangle.mk ⟨0, 0, -1⟩ [⟨0, 0, 1⟩, ⟨1, 1, 1⟩, ⟨1, 0, 1⟩]) ∧
    (Triangle.mk ⟨0, 0, -1⟩ [⟨0, 0, 1⟩, ⟨0, 1, 1⟩, ⟨1, 1, 1⟩]).vertices =
      [([⟨0, 0, 1⟩, ⟨1, 0, 1⟩, ⟨0, 1, 1⟩, ⟨1, 1, 1⟩] : List Vec3).getD (0 * 2 + 0) Vec3.zero,
       ([⟨0, 0, 1⟩, ⟨1, 0, 1⟩, ⟨0, 1, 1⟩, ⟨1, 1, 1⟩] : List Vec3).getD ((0 + 1) * 2 + 0) Vec3.zero,
       ([⟨0, 0, 1⟩, ⟨1, 0, 1⟩, ⟨0, 1, 1⟩, ⟨1, 1, 1⟩] : List Vec3).getD
         ((0 + 1) * 2 + 0 + 1) Vec3.zero] := by
  have hb : backing_block sqrtW [⟨0, 0, 0⟩, ⟨1, 0, 0⟩, ⟨0, 1, 0⟩, ⟨1, 1, 0⟩] 2 0 0 =
      .ok (Triangle.mk ⟨0, 0, 1⟩ [⟨0, 0, 0⟩, ⟨1, 1, 0⟩, ⟨0, 1, 0⟩],
           Triangle.mk ⟨0, 0, 1⟩ [⟨0, 0, 0⟩, ⟨1, 0, 0⟩, ⟨1, 1, 0⟩]) := by
    norm_num [backing_block, three_points_to_triangle, normalize_to_unit_vector,
      cross_product, sqrtW, GenResult.bind, Vec3.sub_def, List.getD_cons_succ,
      List.getD_cons_zero]
  have hf : front_block sqrtW [⟨0, 0, 1⟩, ⟨1, 0, 1⟩, ⟨0, 1, 1⟩, ⟨1, 1, 1⟩] 2 0 0 =
      .ok (Triangle.mk ⟨0, 0, -1⟩ [⟨0, 0, 1⟩, ⟨0, 1, 1⟩, ⟨1, 1, 1⟩],
           Triangle.mk ⟨0, 0, -1⟩ [⟨0, 0, 1⟩, ⟨1, 1, 1⟩, ⟨1, 0, 1⟩]) := by
    norm_num [front_block, three_points_to_triangle, normalize_to_unit_vector,
      cross_product, sqrtW, GenResult.bind, Vec3.sub_def, List.getD_cons_succ,
      List.getD_cons_zero]
  refine ⟨hb, hf, ?_⟩
  have h := (claim_C7_mirrored_winding sqrtW
    [⟨0, 0, 0⟩, ⟨1, 0, 0⟩, ⟨0, 1, 0⟩, ⟨1, 1, 0⟩]
    [⟨0, 0, 1⟩, ⟨1, 0, 1⟩, ⟨0, 1, 1⟩, ⟨1, 1, 1⟩] 2 0 0).1 _ _ _ _ hb hf
  exact h.2.1

/-- Filtering an enumerated list on the index and keeping the values is the
same as selecting the surviving indices from a range. -/
theorem enumFrom_filter_map_snd {α : Type} (l : List α) (k : Nat) (p : Nat → Bool) (d : α) :
    ((List.enumFrom k l).filter fun q => p q.1).map Prod.snd =
      ((List.range l.length).filter fun i => p (k + i)).map fun i => l.getD i d := by
  induction l generalizing k with
  | nil => rfl
  | cons a t ih =>
    rw [List.enumFrom_cons, List.length_cons, List.range_succ_eq_map]
    simp only [List.filter_cons, Nat.add_zero]
    have hmap : List.filter (fun i => p (k + i)) (List.map Nat.succ (List.range t.length)) =
        List.map Nat.succ (List.filter (fun i => p (k + 1 + i)) (List.range t.length)) := by
      rw [List.filter_map]
      congr 1
      apply List.filter_congr
      intro i _
      simp only [Function.comp]
      congr 1
      omega
    have htail : ∀ m : List Nat,
        List.map (fun i => (a :: t).getD i d) (List.map Nat.succ m) =
          List.map (fun i => t.getD i d) m := by
      intro m
      rw [List.map_map]
      apply List.map_congr_left
      intro i _
      simp [Function.comp]
    by_cases hp : p k
    · simp only [hp, ite_true]
      rw [List.map_cons, List.map_cons, List.getD_cons_zero, hmap, htail, ih (k + 1)]
    · simp only [hp, Bool.false_eq_true, ite_false]
      rw [hmap, htail, ih (k + 1)]

/-- A range of `n * c` indices decomposes into `n` rows of `c` columns. -/
theorem range_mul_flatMap (n c : Nat) :
    List.range (n * c) = (List.range n).flatMap fun r => (List.range c).map fun i => r * c + i := by
  induction n with
  | zero => simp
  | succ k ih =>
    rw [Nat.succ_mul, List.range_add, ih, List.range_succ, List.flatMap_append,
      List.flatMap_cons, List.flatMap_nil, List.append_nil]

theorem filter_flatMap {α β : Type} (l : List α) (g : α → List β) (p : β → Bool) :
    (l.flatMap g).filter p = l.flatMap fun a => (g a).filter p := by
  induction l with
  | nil => rfl
  | cons a t ih => rw [List.flatMap_cons, List.flatMap_cons, List.filter_append, ih]

/-- On index `r * ewc + i` of row `r` (with `i < ewc`), the border-stripping
predicate amounts to: interior row and interior column. -/
theorem interior_pred_row (ewc ehc r i : Nat) (hewc : 2 ≤ ewc) (hi : i < ewc) :
    decide (ewc ≤ r * ewc + i ∧ r * ewc + i < ewc * (ehc - 1) ∧
      (r * ewc + i) % ewc ≠ 0 ∧ (r * ewc + i) % ewc ≠ ewc - 1) =
    decide ((1 ≤ r ∧ r < ehc - 1) ∧ i ≠ 0 ∧ i ≠ ewc - 1) := by
  have hmod : (r * ewc + i) % ewc = i := by
    rw [Nat.add_comm, Nat.add_mul_mod_self_right, Nat.mod_eq_of_lt hi]
  rw [decide_eq_decide, hmod]
  have hA : ewc ≤ r * ewc + i ↔ 1 ≤ r := by
    constructor
    · intro h
      by_contra hr
      push_neg at hr
      have : r = 0 := by omega
      subst this
      simp at h
      omega
    · intro hr
      have : 1 * ewc ≤ r * ewc := Nat.mul_le_mul_right ewc hr
      omega
  have hB : r * ewc + i < ewc * (ehc - 1) ↔ r < ehc - 1 := by
    rw [Nat.mul_comm ewc (ehc - 1)]
    constructor
    · intro h
      by_contra hr
      push_neg at hr
      have : (ehc - 1) * ewc ≤ r * ewc := Nat.mul_le_mul_right ewc hr
      omega
    · intro hr
      exact mul_add_lt_mul hr hi
  rw [hA, hB]
  tauto

/-- Filtering the first and last index out of `0..w+2` leaves the shifted
interior `1..w+1`. -/
theorem filter_inner_range (w : Nat) :
    (List.range (w + 2)).filter (fun i => decide (i ≠ 0 ∧ i ≠ w + 2 - 1)) =
      List.map Nat.succ (List.range w) := by
  rw [show w + 2 - 1 = w + 1 from rfl, List.range_succ, List.range_succ_eq_map,
    List.filter_append]
  have h1 : List.filter (fun i => decide (i ≠ 0 ∧ i ≠ w + 1)) [w + 1] = [] := by
    simp
  have h2 : List.filter (fun i => decide (i ≠ 0 ∧ i ≠ w + 1))
      (0 :: List.map Nat.succ (List.range w)) = List.map Nat.succ (List.range w) := by
    rw [List.filter_cons, if_neg (by simp)]
    apply List.filter_eq_self.mpr
    intro a ha
    obtain ⟨i, hi, rfl⟩ := List.mem_map.mp ha
    have := List.mem_range.mp hi
    simp only [decide_eq_true_eq]
    omega
  rw [h1, h2, List.append_nil]

/-- The border-stripping filter keeps exactly the interior of the bordered
grid, in row-major order: entry `(y, x)` of the result is bordered-grid
entry `(y+1, x+1)`. -/
theorem interiorFilter_eq (l : List Vec3) (ewc ehc : Nat) (hewc : 2 ≤ ewc) (hehc : 2 ≤ ehc)
    (hlen : l.length = ehc * ewc) :
    interiorFilter l ewc ehc =
      (idxPairs (ehc - 2) (ewc - 2)).map fun p =>
        l.getD ((p.1 + 1) * ewc + (p.2 + 1)) Vec3.zero := by
  obtain ⟨w, rfl⟩ : ∃ w, ewc = w + 2 := ⟨ewc - 2, by omega⟩
  obtain ⟨h2, rfl⟩ : ∃ h2, ehc = h2 + 2 := ⟨ehc - 2, by omega⟩
  unfold interiorFilter
  rw [show l.enum = List.enumFrom 0 l from rfl,
    enumFrom_filter_map_snd l 0 (interiorPred (w + 2) (h2 + 2)) Vec3.zero]
  have hz : List.filter (fun i => interiorPred (w + 2) (h2 + 2) (0 + i))
      (List.range l.length) = List.filter (interiorPred (w + 2) (h2 + 2))
      (List.range l.length) :=
    List.filter_congr fun i _ => by rw [Nat.zero_add]
  rw [hz, hlen, range_mul_flatMap (h2 + 2) (w + 2), filter_flatMap, List.map_flatMap]
  have hrow : ∀ r, ((List.range (w + 2)).map fun i => r * (w + 2) + i).filter
      (interiorPred (w + 2) (h2 + 2)) =
      if 1 ≤ r ∧ r < h2 + 2 - 1 then
        (((List.range (w + 2)).filter fun i => decide (i ≠ 0 ∧ i ≠ w + 2 - 1)).map
          fun i => r * (w + 2) + i)
      else [] := by
    intro r
    rw [List.filter_map]
    by_cases hr : 1 ≤ r ∧ r < h2 + 2 - 1
    · rw [if_pos hr]
      congr 1
      apply List.filter_congr
      intro i hi
      have hiw := List.mem_range.mp hi
      simp only [Function.comp, interiorPred]
      rw [interior_pred_row (w + 2) (h2 + 2) r i (by omega) hiw, decide_eq_decide]
      tauto
    · rw [if_neg hr]
      have : List.filter (interiorPred (w + 2) (h2 + 2) ∘ fun i => r * (w + 2) + i)
          (List.range (w + 2)) = [] := by
        apply List.filter_eq_nil_iff.mpr
        intro i hi
        have hiw := List.mem_range.mp hi
        simp only [Function.comp, interiorPred]
        rw [interior_pred_row (w + 2) (h2 + 2) r i (by omega) hiw]
        simp only [decide_eq_true_eq]
        tauto
      rw [this, List.map_nil]
  have hcong : (List.range (h2 + 2)).flatMap (fun a =>
      List.map (fun i => l.getD i Vec3.zero)
        (((List.range (w + 2)).map fun i => a * (w + 2) + i).filter
          (interiorPred (w + 2) (h2 + 2)))) =
      (List.range (h2 + 2)).flatMap (fun a =>
      List.map (fun i => l.getD i Vec3.zero)
        (if 1 ≤ a ∧ a < h2 + 2 - 1 then
          (((List.range (w + 2)).filter fun i => decide (i ≠ 0 ∧ i ≠ w + 2 - 1)).map
            fun i => a * (w + 2) + i)
        else [])) :=
    List.flatMap_congr fun a _ => by rw [hrow a]
  rw [hcong]
  have hdec : List.range (h2 + 2) =
      0 :: (List.map Nat.succ (List.range h2) ++ [h2 + 1]) := by
    rw [List.range_succ, List.range_succ_eq_map, List.cons_append]
  rw [hdec, List.flatMap_cons, List.flatMap_append, List.flatMap_cons, List.flatMap_nil,
    List.append_nil, List.flatMap_map]
  rw [if_neg (by omega), List.map_nil, List.nil_append]
  rw [if_neg (by omega), List.map_nil, List.append_nil]
  rw [show (h2 + 2 : Nat) - 2 = h2 from rfl, show (w + 2 : Nat) - 2 = w from rfl]
  unfold idxPairs
  rw [List.map_flatMap]
  apply List.flatMap_congr
  intro r hr
  have hrlt := List.mem_range.mp hr
  rw [if_pos ⟨by omega, by omega⟩, filter_inner_range w, List.map_map, List.map_map,
    List.map_map]
  apply List.map_congr_left
  intro i hi
  simp only [Function.comp]

set_option maxHeartbeats 1000000

theorem step_iter_ok_inputs {L S : Nat} {r : List Int}
    (h : step_iter_with_size L S = .ok r) : 1 ≤ L ∧ 1 ≤ S := by
  by_cases hc : L = 0 ∨ S = 0
  · unfold step_iter_with_size at h
    rw [if_pos hc] at h
    cases h
  · omega

theorem step_iter_eq_of_landed {L S : Nat} (hL : 1 ≤ L) (hS : 1 ≤ S)
    (hc : (L - 1) % S = 0) :
    step_iter_with_size L S = .ok (steppedPart L S ++
      [((L : Int) - 1) * 2 - (steppedPart L S).getD ((steppedPart L S).length - 2) 0]) := by
  unfold step_iter_with_size
  rw [if_neg (show ¬(L = 0 ∨ S = 0) by omega)]
  simp only [hc, ne_eq, not_true_eq_false, if_false]

theorem step_iter_eq_of_missed {L S : Nat} (hL : 1 ≤ L) (hS : 1 ≤ S)
    (hc : (L - 1) % S ≠ 0) :
    step_iter_with_size L S = .ok ((steppedPart L S ++ [(L : Int) - 1]) ++
      [((L : Int) - 1) * 2 - (steppedPart L S ++ [(L : Int) - 1]).getD
        ((steppedPart L S ++ [(L : Int) - 1]).length - 2) 0]) := by
  unfold step_iter_with_size
  rw [if_neg (show ¬(L = 0 ∨ S = 0) by omega)]
  simp only [hc, ne_eq, not_false_eq_true, if_true, ite_true]

theorem step_iter_ok_length_ge {L S : Nat} {r : List Int}
    (h : step_iter_with_size L S = .ok r) : 3 ≤ r.length := by
  obtain ⟨hL, hS⟩ := step_iter_ok_inputs h
  have hq2 := two_le_steppedCount L S hL hS
  by_cases hc : (L - 1) % S = 0
  · rw [step_iter_eq_of_landed hL hS hc] at h
    injection h with h'
    rw [← h', List.length_append, steppedPart_length]
    simp
    omega
  · rw [step_iter_eq_of_missed hL hS hc] at h
    injection h with h'
    rw [← h', List.length_append, List.length_append, steppedPart_length]
    simp
    omega

theorem step_iter_one_ok_length {L : Nat} {r : List Int}
    (h : step_iter_with_size L 1 = .ok r) : r.length = L + 2 := by
  obtain ⟨hL, _⟩ := step_iter_ok_inputs h
  rw [step_iter_eq_of_landed hL (le_refl 1) (by rw [Nat.mod_one])] at h
  injection h with h'
  rw [← h', List.length_append, steppedPart_length]
  simp only [List.length_cons, List.length_nil, steppedCount]
  omega

theorem step_iter_width_one_length {S : Nat} {r : List Int}
    (h : step_iter_with_size 1 S = .ok r) : r.length = 3 := by
  obtain ⟨_, hS⟩ := step_iter_ok_inputs h
  rw [step_iter_eq_of_landed (le_refl 1) hS (by simp)] at h
  injection h with h'
  rw [← h', List.length_append, steppedPart_length]
  have hsc : steppedCount 1 S = 2 := by
    unfold steppedCount
    rw [show 1 + 2 * S - 1 = 2 * S from by omega, Nat.mul_comm,
      Nat.mul_div_cancel_left 2 (by omega)]
  rw [hsc]
  simp

theorem sum_map_const {α : Type} (l : List α) (c : Nat) :
    (List.map (fun _ => c) l).sum = l.length * c := by
  induction l with
  | nil => simp
  | cons a t ih =>
    simp only [List.map_cons, List.sum_cons, List.length_cons, ih]
    ring

theorem buildVertices_length (x_fn y_fn z_fn : CoordFn) (width height : Nat)
    (width_range height_range : List Int) :
    (buildVertices x_fn y_fn z_fn width height width_range height_range).length =
      height_range.length * width_range.length := by
  unfold buildVertices
  rw [List.length_flatMap]
  have hmap : List.map (List.length ∘ fun (y_i : Int) => width_range.map
      fun (x_i : Int) =>
        (⟨x_fn (x_i : ℚ) (y_i : ℚ) (width : ℚ) (height : ℚ),
          y_fn (x_i : ℚ) (y_i : ℚ) (width : ℚ) (height : ℚ),
          z_fn (x_i : ℚ) (y_i : ℚ) (width : ℚ) (height : ℚ)⟩ : Vec3)) height_range =
      List.map (fun _ => width_range.length) height_range := by
    apply List.map_congr_left
    intro a _
    simp [Function.comp]
  rw [hmap, sum_map_const]

/-- Inversion of a successful point-cloud generation into its parts. -/
theorem generate_point_cloud_ok {sqrt : ℚ → ℚ} {x_fn y_fn z_fn : CoordFn}
    {W H S : Nat} {pc : PointCloud}
    (h : generate_point_cloud sqrt x_fn y_fn z_fn W H S = .ok pc) :
    ∃ wr hr normals,
      step_iter_with_size W S = .ok wr ∧
      step_iter_with_size H S = .ok hr ∧
      computeNormals sqrt (buildVertices x_fn y_fn z_fn W H wr hr) wr.length hr.length =
        .ok normals ∧
      pc = { vertices := interiorFilter (buildVertices x_fn y_fn z_fn W H wr hr)
                wr.length hr.length
             vertex_normals := normals
             width := wr.length - 2
             height := hr.length - 2 } := by
  unfold generate_point_cloud at h
  obtain ⟨wr, hwr, h2⟩ := GenResult.bind_eq_ok h
  obtain ⟨hr, hhr, h3⟩ := GenResult.bind_eq_ok h2
  obtain ⟨normals, hn, h4⟩ := GenResult.bind_eq_ok h3
  injection h4 with h5
  exact ⟨wr, hr, normals, hwr, hhr, hn, h5.symm⟩

theorem getD_map_idxPairs {r c y x : Nat} {β : Type} (f : Nat × Nat → β) (d : β)
    (hy : y < r) (hx : x < c) :
    ((idxPairs r c).map f).getD (y * c + x) d = f (y, x) := by
  have hb : y * c + x < ((idxPairs r c).map f).length := by
    rw [List.length_map, idxPairs_length]
    exact mul_add_lt_mul hy hx
  rw [List.getD_eq_getElem _ _ hb, List.getElem_map]
  have h2 := idxPairs_getD (r := r) (c := c) hy hx
  rw [List.getD_eq_getElem _ _ (by rw [idxPairs_length]; exact mul_add_lt_mul hy hx)] at h2
  rw [h2]

/-- C9: a successful point cloud is exactly the bordered grid with the
border stripped (`extended - 2` per axis), the vertices and normals are
parallel row-major sequences of length `width * height`, and the normal at
flat index `y * width + x` is the one estimated for the vertex at that same
flat index. -/
theorem claim_C9_point_cloud_shape (sqrt : ℚ → ℚ) (x_fn y_fn z_fn : CoordFn)
    (W H S : Nat) (pc : PointCloud)
    (h : generate_point_cloud sqrt x_fn y_fn z_fn W H S = .ok pc) :
    ∃ wr hr, step_iter_with_size W S = .ok wr ∧ step_iter_with_size H S = .ok hr ∧
      pc.width = wr.length - 2 ∧ pc.height = hr.length - 2 ∧
      pc.vertices.length = pc.width * pc.height ∧
      pc.vertex_normals.length = pc.width * pc.height ∧
      (∀ y x, y < pc.height → x < pc.width →
        pc.vertices.getD (y * pc.width + x) Vec3.zero =
          (buildVertices x_fn y_fn z_fn W H wr hr).getD
            ((y + 1) * wr.length + (x + 1)) Vec3.zero ∧
        normalAt sqrt (buildVertices x_fn y_fn z_fn W H wr hr) wr.length y x =
          .ok (pc.vertex_normals.getD (y * pc.width + x) Vec3.zero)) := by
  obtain ⟨wr, hr, normals, hwr, hhr, hn, hpc⟩ := generate_point_cloud_ok h
  have hwl := step_iter_ok_length_ge hwr
  have hhl := step_iter_ok_length_ge hhr
  have hglen : (buildVertices x_fn y_fn z_fn W H wr hr).length = hr.length * wr.length :=
    buildVertices_length x_fn y_fn z_fn W H wr hr
  have hif := interiorFilter_eq (buildVertices x_fn y_fn z_fn W H wr hr)
    wr.length hr.length (by omega) (by omega) hglen
  subst hpc
  refine ⟨wr, hr, hwr, hhr, rfl, rfl, ?_, ?_, ?_⟩
  · show (interiorFilter (buildVertices x_fn y_fn z_fn W H wr hr)
      wr.length hr.length).length = (wr.length - 2) * (hr.length - 2)
    rw [hif, List.length_map, idxPairs_length, Nat.mul_comm]
  · show normals.length = (wr.length - 2) * (hr.length - 2)
    rw [mapRes_ok_length hn, idxPairs_length, Nat.mul_comm]
  · intro y x hy hx
    constructor
    · show (interiorFilter (buildVertices x_fn y_fn z_fn W H wr hr)
        wr.length hr.length).getD (y * (wr.length - 2) + x) Vec3.zero = _
      rw [hif, getD_map_idxPairs _ _ hy hx]
    · have hidx : y * (wr.length - 2) + x < (idxPairs (hr.length - 2) (wr.length - 2)).length := by
        rw [idxPairs_length]
        exact mul_add_lt_mul hy hx
      have h2 := mapRes_ok_getD hn (0, 0) Vec3.zero (y * (wr.length - 2) + x) hidx
      rw [idxPairs_getD hy hx] at h2
      exact h2

set_option maxHeartbeats 1000000

/-- Witness for C9: a 1x1 flat point cloud. -/
theorem claim_C9_witness :
    generate_point_cloud sqrtW (fun x _ _ _ => x) (fun _ y _ _ => y) (fun _ _ _ _ => 0)
      1 1 1 = .ok (PointCloud.mk [⟨0, 0, 0⟩] [⟨0, 0, -2⟩] 1 1) ∧
    ([⟨(0 : ℚ), 0, 0⟩] : List Vec3).length = 1 * 1 := by
  have hval : generate_point_cloud sqrtW (fun x _ _ _ => x) (fun _ y _ _ => y)
      (fun _ _ _ _ => 0) 1 1 1 = .ok (PointCloud.mk [⟨0, 0, 0⟩] [⟨0, 0, -2⟩] 1 1) := by
    norm_num [generate_point_cloud, step_iter_with_size, steppedPart, steppedCount,
      buildVertices, computeNormals, normalAt, mapRes, idxPairs, interiorPred,
      interiorFilter, normalize_to_unit_vector, cross_product, sqrtW, GenResult.bind,
      Vec3.sub_def, Vec3.add_def, Vec3.zero, List.range_succ, List.enum,
      List.enumFrom_cons, List.enumFrom_nil, List.filter_cons, List.filter_nil,
      List.getD_cons_succ, List.getD_cons_zero, List.getD_eq_getElem?_getD,
      List.getElem?_cons_zero, List.getElem?_cons_succ, Option.getD, Option.map]
  refine ⟨hval, ?_⟩
  obtain ⟨wr, hr, _, _, _, _, h5, _⟩ := claim_C9_point_cloud_shape sqrtW
    (fun x _ _ _ => x) (fun _ y _ _ => y) (fun _ _ _ _ => 0) 1 1 1 _ hval
  exact h5

theorem generate_lithophane_mesh_ok_length {sqrt : ℚ → ℚ} {pc : PointCloud}
    {image : GrayImage} {wd bd : ℚ} {m : List Triangle}
    (h : generate_lithophane_mesh sqrt pc image wd bd = .ok m) (hh : 1 ≤ pc.height) :
    m.length = 4 * (pc.width - 1) * (pc.height - 1) + 4 * (pc.width - 1) +
      4 * (pc.height - 1) := by
  unfold generate_lithophane_mesh at h
  obtain ⟨backing, hb, h2⟩ := GenResult.bind_eq_ok h
  obtain ⟨front, hf, h3⟩ := GenResult.bind_eq_ok h2
  obtain ⟨top, ht, h4⟩ := GenResult.bind_eq_ok h3
  obtain ⟨bottom, hbo, h5⟩ := GenResult.bind_eq_ok h4
  obtain ⟨left, hl, h6⟩ := GenResult.bind_eq_ok h5
  obtain ⟨right, hri, h7⟩ := GenResult.bind_eq_ok h6
  injection h7 with h8
  rw [← h8]
  have l1 := blocks2_ok_length hb
  rw [idxPairs_length] at l1
  have l2 := blocks2_ok_length hf
  rw [idxPairs_length] at l2
  have l3 := blocks2_ok_length ht
  rw [List.length_range] at l3
  have l4 := blocks2_ok_length hbo
  rw [List.length_range'] at l4
  have l5 := blocks2_ok_length hl
  rw [List.length_range] at l5
  have l6 := blocks2_ok_length hri
  rw [List.length_range] at l6
  have hbot : pc.height * pc.width - 1 - (pc.height - 1) * pc.width = pc.width - 1 := by
    obtain ⟨k, hk⟩ : ∃ k, pc.height = k + 1 := ⟨pc.height - 1, by omega⟩
    rw [hk, Nat.add_mul, Nat.one_mul, Nat.add_sub_cancel]
    set a := k * pc.width
    omega
  rw [hbot] at l4
  simp only [List.length_append]
  rw [l1, l2, l3, l4, l5, l6]
  set a := pc.width - 1
  set b := pc.height - 1
  ring

/-- C3: a successful full lithophane of a `W x H` image (`W, H ≥ 2`) has
exactly `4*(W-1)*(H-1) + 4*(W-1) + 4*(H-1)` triangles, and a successful
preview over a stepped grid with extended per-axis sequences `wr`, `hr` has
exactly `2 * ((wr.length - 2) - 1) * ((hr.length - 2) - 1)` triangles (the
extended dimensions minus the border, minus one, per axis). -/
theorem claim_C3_triangle_counts (sqrt : ℚ → ℚ) (x_fn y_fn z_fn : CoordFn)
    (image : GrayImage) (white_depth black_depth : ℚ) (W H S : Nat)
    (hW2 : 2 ≤ image.width) (hH2 : 2 ≤ image.height) :
    (∀ m, generate_lithophane sqrt x_fn y_fn z_fn image white_depth black_depth = .ok m →
      m.triangles.length = 4 * (image.width - 1) * (image.height - 1) +
        4 * (image.width - 1) + 4 * (image.height - 1)) ∧
    (∀ m wr hr, step_iter_with_size W S = .ok wr → step_iter_with_size H S = .ok hr →
      generate_preview sqrt x_fn y_fn z_fn W H S = .ok m →
      m.triangles.length = 2 * (wr.length - 2 - 1) * (hr.length - 2 - 1)) := by
  constructor
  · intro m hm
    unfold generate_lithophane at hm
    obtain ⟨pc, hpc, h2⟩ := GenResult.bind_eq_ok hm
    obtain ⟨mesh, hmesh, h3⟩ := GenResult.bind_eq_ok h2
    injection h3 with h4
    obtain ⟨wr, hr, normals, hwr, hhr, _, hpceq⟩ := generate_point_cloud_ok hpc
    have hwl := step_iter_one_ok_length hwr
    have hhl := step_iter_one_ok_length hhr
    have hpw : pc.width = image.width := by rw [hpceq]; simp [hwl]
    have hph : pc.height = image.height := by rw [hpceq]; simp [hhl]
    have hlen := generate_lithophane_mesh_ok_length hmesh (by omega)
    rw [← h4]
    show mesh.length = _
    rw [hlen, hpw, hph]
  · intro m wr hr hwr hhr hm
    unfold generate_preview at hm
    obtain ⟨pc, hpc, h2⟩ := GenResult.bind_eq_ok hm
    obtain ⟨ts, hts, h3⟩ := GenResult.bind_eq_ok h2
    injection h3 with h4
    obtain ⟨wr', hr', normals, hwr', hhr', _, hpceq⟩ := generate_point_cloud_ok hpc
    have hwre : wr' = wr := by
      have h5 := hwr'.symm.trans hwr
      injection h5
    have hhre : hr' = hr := by
      have h5 := hhr'.symm.trans hhr
      injection h5
    rw [hwre, hhre] at hpceq
    have hlen := blocks2_ok_length hts
    rw [idxPairs_length] at hlen
    have hpw : pc.width = wr.length - 2 := by rw [hpceq]
    have hph : pc.height = hr.length - 2 := by rw [hpceq]
    rw [← h4]
    show ts.length = _
    rw [hlen, hpw, hph]
    set a := wr.length - 2 with ha
    set b := hr.length - 2 with hb
    ring

/-- Witness for C3: full lithophane and preview of a flat 2x2 setup. -/
theorem claim_C3_witness :
    triCount (generate_lithophane sqrtW (fun x _ _ _ => x) (fun _ y _ _ => y)
      (fun _ _ _ _ => 0) (GrayImage.mk 2 2 fun _ _ => 255) 1 2) = some 12 ∧
    triCount (generate_preview sqrtW (fun x _ _ _ => x) (fun _ y _ _ => y)
      (fun _ _ _ _ => 0) 2 2 1) = some 2 := by
  have h := claim_C3_triangle_counts sqrtW (fun x _ _ _ => x) (fun _ y _ _ => y)
    (fun _ _ _ _ => 0) (GrayImage.mk 2 2 fun _ _ => 255) 1 2 2 2 1 (by decide) (by decide)
  obtain ⟨m, hm⟩ : ∃ m, generate_lithophane sqrtW (fun x _ _ _ => x) (fun _ y _ _ => y)
      (fun _ _ _ _ => 0) (GrayImage.mk 2 2 fun _ _ => 255) 1 2 = .ok m := by
    norm_num [generate_lithophane, generate_point_cloud, step_iter_with_size, steppedPart,
      steppedCount, buildVertices, computeNormals, normalAt, mapRes, idxPairs, interiorPred,
      interiorFilter, normalize_to_unit_vector, cross_product, sqrtW, GenResult.bind,
      generate_lithophane_mesh, blocks2, flat2, backing_block, front_block, top_block,
      bottom_block, left_block, right_block, px_vertices, get_px_depth,
      three_points_to_triangle, Vec3.sub_def, Vec3.add_def, Vec3.smul_def, Vec3.zero,
      List.range_succ, List.enum, List.enumFrom_cons, List.enumFrom_nil, List.filter_cons,
      List.filter_nil, List.getD_cons_succ, List.getD_cons_zero, List.getD_eq_getElem?_getD,
      List.getElem?_cons_zero, List.getElem?_cons_succ, Option.getD, Option.map,
      List.range']
  obtain ⟨p, hp⟩ : ∃ p, generate_preview sqrtW (fun x _ _ _ => x) (fun _ y _ _ => y)
      (fun _ _ _ _ => 0) 2 2 1 = .ok p := by
    norm_num [generate_preview, generate_point_cloud, step_iter_with_size, steppedPart,
      steppedCount, buildVertices, computeNormals, normalAt, mapRes, idxPairs, interiorPred,
      interiorFilter, normalize_to_unit_vector, cross_product, sqrtW, GenResult.bind,
      blocks2, flat2, preview_block, three_points_to_triangle, Vec3.sub_def, Vec3.add_def,
      Vec3.zero, List.range_succ, List.enum, List.enumFrom_cons, List.enumFrom_nil,
      List.filter_cons, List.filter_nil, List.getD_cons_succ, List.getD_cons_zero,
      List.getD_eq_getElem?_getD, List.getElem?_cons_zero, List.getElem?_cons_succ,
      Option.getD, Option.map]
  have h12 := h.1 m hm
  have h2 := h.2 p [-1, 0, 1, 2] [-1, 0, 1, 2] (by decide) (by decide) hp
  rw [hm, hp]
  refine ⟨?_, ?_⟩
  · simp only [triCount]
    rw [h12]
    norm_num
  · simp only [triCount]
    rw [h2]
    norm_num

theorem idxPairs_zero_cols (r : Nat) : idxPairs r 0 = [] := by
  unfold idxPairs
  simp

/-- C2 (amended): for `width, height, step ≥ 1` the vertex-grid evaluation
itself never errors (both index sequences are produced and the bordered
grid is built totally); a full lithophane of a `1 x 1` image has zero
triangles whenever it succeeds; and a preview with `width = 1` or
`height = 1` has zero triangles whenever it succeeds.  (The original
claim fails for `width = 0` — the index sequence panics — and for a full
lithophane with exactly one of the dimensions equal to 1, which still
emits side-wall triangles.) -/
theorem claim_C2_amended (sqrt : ℚ → ℚ) (x_fn y_fn z_fn : CoordFn) (W H S : Nat)
    (hW : 1 ≤ W) (hH : 1 ≤ H) (hS : 1 ≤ S) :
    (∃ wr hr, step_iter_with_size W S = .ok wr ∧ step_iter_with_size H S = .ok hr ∧
      (buildVertices x_fn y_fn z_fn W H wr hr).length = hr.length * wr.length) ∧
    (∀ image wd bd m, image.width = 1 → image.height = 1 →
      generate_lithophane sqrt x_fn y_fn z_fn image wd bd = .ok m → m.triangles = []) ∧
    ((W = 1 ∨ H = 1) → ∀ m, generate_preview sqrt x_fn y_fn z_fn W H S = .ok m →
      m.triangles = []) := by
  have hex : ∀ L, 1 ≤ L → ∃ r, step_iter_with_size L S = .ok r := by
    intro L hL
    by_cases hc : (L - 1) % S = 0
    · exact ⟨_, step_iter_eq_of_landed hL hS hc⟩
    · exact ⟨_, step_iter_eq_of_missed hL hS hc⟩
  refine ⟨?_, ?_, ?_⟩
  · obtain ⟨wr, hwr⟩ := hex W hW
    obtain ⟨hr, hhr⟩ := hex H hH
    exact ⟨wr, hr, hwr, hhr, buildVertices_length x_fn y_fn z_fn W H wr hr⟩
  · intro image wd bd m h1 h2 hm
    unfold generate_lithophane at hm
    obtain ⟨pc, hpc, hm2⟩ := GenResult.bind_eq_ok hm
    obtain ⟨mesh, hmesh, hm3⟩ := GenResult.bind_eq_ok hm2
    injection hm3 with hm4
    obtain ⟨wr, hr, normals, hwr, hhr, _, hpceq⟩ := generate_point_cloud_ok hpc
    have hwl := step_iter_one_ok_length hwr
    have hhl := step_iter_one_ok_length hhr
    have hpw : pc.width = 1 := by rw [hpceq]; simp [hwl, h1]
    have hph : pc.height = 1 := by rw [hpceq]; simp [hhl, h2]
    have hlen := generate_lithophane_mesh_ok_length hmesh (by omega)
    rw [hpw, hph] at hlen
    simp only [Nat.sub_self, Nat.mul_zero, Nat.zero_mul, Nat.add_zero, Nat.mul_one] at hlen
    rw [← hm4]
    show mesh = []
    exact List.length_eq_zero.mp hlen
  · intro hor m hm
    unfold generate_preview at hm
    obtain ⟨pc, hpc, hm2⟩ := GenResult.bind_eq_ok hm
    obtain ⟨ts, hts, hm3⟩ := GenResult.bind_eq_ok hm2
    injection hm3 with hm4
    obtain ⟨wr, hr, normals, hwr, hhr, _, hpceq⟩ := generate_point_cloud_ok hpc
    have hlen := blocks2_ok_length hts
    rw [idxPairs_length] at hlen
    have hpw : pc.width = wr.length - 2 := by rw [hpceq]
    have hph : pc.height = hr.length - 2 := by rw [hpceq]
    have hzero : ts.length = 0 := by
      rcases hor with h1 | h1
      · subst h1
        have h3 : pc.width = 1 := by rw [hpw, step_iter_width_one_length hwr]
        rw [h3] at hlen
        simpa using hlen
      · subst h1
        have h3 : pc.height = 1 := by rw [hph, step_iter_width_one_length hhr]
        rw [h3] at hlen
        simpa using hlen
    rw [← hm4]
    show ts = []
    exact List.length_eq_zero.mp hzero

/-- Counterexample for C2 as stated: a full lithophane of a `1 x 2` image
yields 4 side-wall triangles, not zero; and grid evaluation at width 0
panics instead of evaluating. -/
theorem claim_C2_counterexample :
    triCount (generate_lithophane sqrtW (fun x _ _ _ => x) (fun _ y _ _ => y)
      (fun _ _ _ _ => 0) (GrayImage.mk 1 2 fun _ _ => 255) 1 1) = some 4 ∧
    step_iter_with_size 0 1 = .panicked := by
  constructor
  · norm_num [generate_lithophane, generate_point_cloud, step_iter_with_size, steppedPart,
      steppedCount, buildVertices, computeNormals, normalAt, mapRes, idxPairs, interiorPred,
      interiorFilter, normalize_to_unit_vector, cross_product, sqrtW, GenResult.bind,
      generate_lithophane_mesh, blocks2, flat2, backing_block, front_block, top_block,
      bottom_block, left_block, right_block, px_vertices, get_px_depth,
      three_points_to_triangle, Vec3.sub_def, Vec3.add_def, Vec3.smul_def, Vec3.zero,
      List.range_succ, List.enum, List.enumFrom_cons, List.enumFrom_nil, List.filter_cons,
      List.filter_nil, List.getD_cons_succ, List.getD_cons_zero, List.getD_eq_getElem?_getD,
      List.getElem?_cons_zero, List.getElem?_cons_succ, Option.getD, Option.map,
      List.range', triCount]
  · decide

/-- Witness for the amended C2 at `width = height = step = 1`. -/
theorem claim_C2_witness :
    generate_preview sqrtW (fun x _ _ _ => x) (fun _ y _ _ => y) (fun _ _ _ _ => 0)
      1 1 1 = .ok (StlModel.mk "" []) ∧
    (StlModel.mk "" []).triangles = [] := by
  have hval : generate_preview sqrtW (fun x _ _ _ => x) (fun _ y _ _ => y)
      (fun _ _ _ _ => 0) 1 1 1 = .ok (StlModel.mk "" []) := by
    norm_num [generate_preview, generate_point_cloud, step_iter_with_size, steppedPart,
      steppedCount, buildVertices, computeNormals, normalAt, mapRes, idxPairs, interiorPred,
      interiorFilter, normalize_to_unit_vector, cross_product, sqrtW, GenResult.bind,
      blocks2, flat2, preview_block, three_points_to_triangle, Vec3.sub_def, Vec3.add_def,
      Vec3.zero, List.range_succ, List.enum, List.enumFrom_cons, List.enumFrom_nil,
      List.filter_cons, List.filter_nil, List.getD_cons_succ, List.getD_cons_zero,
      List.getD_eq_getElem?_getD, List.getElem?_cons_zero, List.getElem?_cons_succ,
      Option.getD, Option.map]
  refine ⟨hval, ?_⟩
  exact (claim_C2_amended sqrtW (fun x _ _ _ => x) (fun _ y _ _ => y) (fun _ _ _ _ => 0)
    1 1 1 (by decide) (by decide) (by decide)).2.2 (Or.inl rfl) (StlModel.mk "" []) hval

theorem bind_eq_invalid_of {α β : Type} {x : GenResult α} {f : α → GenResult β}
    (hx : x ≠ .panicked) (hf : ∀ a, x = .ok a → f a = .invalidPoints) :
    x.bind f = .invalidPoints := by
  cases x with
  | ok a => exact hf a rfl
  | invalidPoints => rfl
  | panicked => exact absurd rfl hx

theorem pair_ok_ne_panicked {x y : GenResult Triangle}
    (hx : x ≠ .panicked) (hy : y ≠ .panicked) :
    (x.bind fun t1 => y.bind fun t2 => GenResult.ok (t1, t2)) ≠ .panicked := by
  refine GenResult.bind_ne_panicked hx fun t1 => ?_
  refine GenResult.bind_ne_panicked hy fun t2 => ?_
  simp

theorem backing_block_ne_panicked (sqrt : ℚ → ℚ) (verts : List Vec3) (w y x : Nat) :
    backing_block sqrt verts w y x ≠ .panicked := by
  unfold backing_block
  exact pair_ok_ne_panicked (three_points_ne_panicked sqrt _ _ _)
    (three_points_ne_panicked sqrt _ _ _)

theorem front_block_ne_panicked (sqrt : ℚ → ℚ) (pxv : List Vec3) (w y x : Nat) :
    front_block sqrt pxv w y x ≠ .panicked := by
  unfold front_block
  exact pair_ok_ne_panicked (three_points_ne_panicked sqrt _ _ _)
    (three_points_ne_panicked sqrt _ _ _)

theorem top_block_ne_panicked (sqrt : ℚ → ℚ) (verts pxv : List Vec3) (x : Nat) :
    top_block sqrt verts pxv x ≠ .panicked := by
  unfold top_block
  exact pair_ok_ne_panicked (three_points_ne_panicked sqrt _ _ _)
    (three_points_ne_panicked sqrt _ _ _)

theorem bottom_block_ne_panicked (sqrt : ℚ → ℚ) (verts pxv : List Vec3) (x : Nat) :
    bottom_block sqrt verts pxv x ≠ .panicked := by
  unfold bottom_block
  exact pair_ok_ne_panicked (three_points_ne_panicked sqrt _ _ _)
    (three_points_ne_panicked sqrt _ _ _)

theorem left_block_ne_panicked (sqrt : ℚ → ℚ) (verts pxv : List Vec3) (w y : Nat) :
    left_block sqrt verts pxv w y ≠ .panicked := by
  unfold left_block
  exact pair_ok_ne_panicked (three_points_ne_panicked sqrt _ _ _)
    (three_points_ne_panicked sqrt _ _ _)

theorem right_block_ne_panicked (sqrt : ℚ → ℚ) (verts pxv : List Vec3) (w y : Nat) :
    right_block sqrt verts pxv w y ≠ .panicked := by
  unfold right_block
  exact pair_ok_ne_panicked (three_points_ne_panicked sqrt _ _ _)
    (three_points_ne_panicked sqrt _ _ _)

theorem preview_block_ne_panicked (sqrt : ℚ → ℚ) (verts : List Vec3) (w y x : Nat) :
    preview_block sqrt verts w y x ≠ .panicked := by
  unfold preview_block
  exact pair_ok_ne_panicked (three_points_ne_panicked sqrt _ _ _)
    (three_points_ne_panicked sqrt _ _ _)

/-- If any of the six sections of the full mesh assembly detects degenerate
geometry on one of its blocks, the whole assembly returns the error. -/
theorem generate_lithophane_mesh_invalid {sqrt : ℚ → ℚ} {pc : PointCloud}
    {image : GrayImage} {wd bd : ℚ}
    (hdis :
      (∃ p ∈ idxPairs (pc.height - 1) (pc.width - 1),
        backing_block sqrt pc.vertices pc.width p.1 p.2 = .invalidPoints) ∨
      (∃ p ∈ idxPairs (pc.height - 1) (pc.width - 1),
        front_block sqrt (px_vertices pc image wd bd) pc.width p.1 p.2 = .invalidPoints) ∨
      (∃ x ∈ List.range (pc.width - 1),
        top_block sqrt pc.vertices (px_vertices pc image wd bd) x = .invalidPoints) ∨
      (∃ x ∈ List.range' ((pc.height - 1) * pc.width)
          (pc.height * pc.width - 1 - (pc.height - 1) * pc.width),
        bottom_block sqrt pc.vertices (px_vertices pc image wd bd) x = .invalidPoints) ∨
      (∃ y ∈ List.range (pc.height - 1),
        left_block sqrt pc.vertices (px_vertices pc image wd bd) pc.width y =
          .invalidPoints) ∨
      (∃ y ∈ List.range (pc.height - 1),
        right_block sqrt pc.vertices (px_vertices pc image wd bd) pc.width y =
          .invalidPoints)) :
    generate_lithophane_mesh sqrt pc image wd bd = .invalidPoints := by
  simp only [generate_lithophane_mesh]
  rcases hdis with h | h | h | h | h | h
  · rw [(blocks2_invalid_iff fun a _ => backing_block_ne_panicked sqrt _ _ a.1 a.2).mpr h]
    rfl
  · apply bind_eq_invalid_of
      (blocks2_ne_panicked fun a _ => backing_block_ne_panicked sqrt _ _ a.1 a.2)
    intro backing _
    rw [(blocks2_invalid_iff fun a _ => front_block_ne_panicked sqrt _ _ a.1 a.2).mpr h]
    rfl
  · apply bind_eq_invalid_of
      (blocks2_ne_panicked fun a _ => backing_block_ne_panicked sqrt _ _ a.1 a.2)
    intro backing _
    apply bind_eq_invalid_of
      (blocks2_ne_panicked fun a _ => front_block_ne_panicked sqrt _ _ a.1 a.2)
    intro front _
    rw [(blocks2_invalid_iff fun a _ => top_block_ne_panicked sqrt _ _ a).mpr h]
    rfl
  · apply bind_eq_invalid_of
      (blocks2_ne_panicked fun a _ => backing_block_ne_panicked sqrt _ _ a.1 a.2)
    intro backing _
    apply bind_eq_invalid_of
      (blocks2_ne_panicked fun a _ => front_block_ne_panicked sqrt _ _ a.1 a.2)
    intro front _
    apply bind_eq_invalid_of
      (blocks2_ne_panicked fun a _ => top_block_ne_panicked sqrt _ _ a)
    intro top _
    rw [(blocks2_invalid_iff fun a _ => bottom_block_ne_panicked sqrt _ _ a).mpr h]
    rfl
  · apply bind_eq_invalid_of
      (blocks2_ne_panicked fun a _ => backing_block_ne_panicked sqrt _ _ a.1 a.2)
    intro backing _
    apply bind_eq_invalid_of
      (blocks2_ne_panicked fun a _ => front_block_ne_panicked sqrt _ _ a.1 a.2)
    intro front _
    apply bind_eq_invalid_of
      (blocks2_ne_panicked fun a _ => top_block_ne_panicked sqrt _ _ a)
    intro top _
    apply bind_eq_invalid_of
      (blocks2_ne_panicked fun a _ => bottom_block_ne_panicked sqrt _ _ a)
    intro bottom _
    rw [(blocks2_invalid_iff fun a _ => left_block_ne_panicked sqrt _ _ _ a).mpr h]
    rfl
  · apply bind_eq_invalid_of
      (blocks2_ne_panicked fun a _ => backing_block_ne_panicked sqrt _ _ a.1 a.2)
    intro backing _
    apply bind_eq_invalid_of
      (blocks2_ne_panicked fun a _ => front_block_ne_panicked sqrt _ _ a.1 a.2)
    intro front _
    apply bind_eq_invalid_of
      (blocks2_ne_panicked fun a _ => top_block_ne_panicked sqrt _ _ a)
    intro top _
    apply bind_eq_invalid_of
      (blocks2_ne_panicked fun a _ => bottom_block_ne_panicked sqrt _ _ a)
    intro bottom _
    apply bind_eq_invalid_of
      (blocks2_ne_panicked fun a _ => left_block_ne_panicked sqrt _ _ _ a)
    intro left _
    rw [(blocks2_invalid_iff fun a _ => right_block_ne_panicked sqrt _ _ _ a).mpr h]
    rfl

/-- C8: generation is all-or-nothing.  If point-cloud generation (which
contains every normal computation) reports degenerate geometry, or any
triangle construction of any mesh section does, the public entry points
return the error and no mesh; a partial triangle list is never produced. -/
theorem claim_C8_all_or_nothing (sqrt : ℚ → ℚ) (x_fn y_fn z_fn : CoordFn)
    (image : GrayImage) (white_depth black_depth : ℚ) (W H S : Nat) :
    (generate_point_cloud sqrt x_fn y_fn z_fn image.width image.height 1 = .invalidPoints →
      generate_lithophane sqrt x_fn y_fn z_fn image white_depth black_depth =
        .invalidPoints) ∧
    (∀ pc, generate_point_cloud sqrt x_fn y_fn z_fn image.width image.height 1 = .ok pc →
      ((∃ p ∈ idxPairs (pc.height - 1) (pc.width - 1),
          backing_block sqrt pc.vertices pc.width p.1 p.2 = .invalidPoints) ∨
       (∃ p ∈ idxPairs (pc.height - 1) (pc.width - 1),
          front_block sqrt (px_vertices pc image white_depth black_depth) pc.width p.1 p.2 =
            .invalidPoints) ∨
       (∃ x ∈ List.range (pc.width - 1),
          top_block sqrt pc.vertices (px_vertices pc image white_depth black_depth) x =
            .invalidPoints) ∨
       (∃ x ∈ List.range' ((pc.height - 1) * pc.width)
            (pc.height * pc.width - 1 - (pc.height - 1) * pc.width),
          bottom_block sqrt pc.vertices (px_vertices pc image white_depth black_depth) x =
            .invalidPoints) ∨
       (∃ y ∈ List.range (pc.height - 1),
          left_block sqrt pc.vertices (px_vertices pc image white_depth black_depth)
            pc.width y = .invalidPoints) ∨
       (∃ y ∈ List.range (pc.height - 1),
          right_block sqrt pc.vertices (px_vertices pc image white_depth black_depth)
            pc.width y = .invalidPoints)) →
      generate_lithophane sqrt x_fn y_fn z_fn image white_depth black_depth =
        .invalidPoints) ∧
    (generate_point_cloud sqrt x_fn y_fn z_fn W H S = .invalidPoints →
      generate_preview sqrt x_fn y_fn z_fn W H S = .invalidPoints) ∧
    (∀ pc, generate_point_cloud sqrt x_fn y_fn z_fn W H S = .ok pc →
      (∃ p ∈ idxPairs (pc.height - 1) (pc.width - 1),
        preview_block sqrt pc.vertices pc.width p.1 p.2 = .invalidPoints) →
      generate_preview sqrt x_fn y_fn z_fn W H S = .invalidPoints) := by
  refine ⟨?_, ?_, ?_, ?_⟩
  · intro h
    unfold generate_lithophane
    rw [h]
    rfl
  · intro pc hpc hdis
    unfold generate_lithophane
    rw [hpc]
    show (generate_lithophane_mesh sqrt pc image white_depth black_depth).bind _ =
      .invalidPoints
    rw [generate_lithophane_mesh_invalid hdis]
    rfl
  · intro h
    unfold generate_preview
    rw [h]
    rfl
  · intro pc hpc hfail
    unfold generate_preview
    rw [hpc]
    show (GenResult.bind (blocks2 (idxPairs (pc.height - 1) (pc.width - 1))
      fun p => preview_block sqrt pc.vertices pc.width p.1 p.2) _) = .invalidPoints
    rw [(blocks2_invalid_iff fun a _ => preview_block_ne_panicked sqrt _ _ a.1 a.2).mpr hfail]
    rfl

/-- Witness for C8: constant coordinate functions collapse every cross
product, the point cloud fails, and the public call returns the error. -/
theorem claim_C8_witness :
    generate_point_cloud sqrtW (fun _ _ _ _ => 0) (fun _ _ _ _ => 0) (fun _ _ _ _ => 0)
      1 1 1 = .invalidPoints ∧
    generate_lithophane sqrtW (fun _ _ _ _ => 0) (fun _ _ _ _ => 0) (fun _ _ _ _ => 0)
      (GrayImage.mk 1 1 fun _ _ => 0) 0 1 = .invalidPoints := by
  have hpc : generate_point_cloud sqrtW (fun _ _ _ _ => 0) (fun _ _ _ _ => 0)
      (fun _ _ _ _ => 0) 1 1 1 = .invalidPoints := by
    norm_num [generate_point_cloud, step_iter_with_size, steppedPart, steppedCount,
      buildVertices, computeNormals, normalAt, mapRes, idxPairs, interiorPred,
      interiorFilter, normalize_to_unit_vector, cross_product, sqrtW, GenResult.bind,
      Vec3.sub_def, Vec3.add_def, Vec3.zero, List.range_succ, List.enum,
      List.enumFrom_cons, List.enumFrom_nil, List.filter_cons, List.filter_nil,
      List.getD_cons_succ, List.getD_cons_zero, List.getD_eq_getElem?_getD,
      List.getElem?_cons_zero, List.getElem?_cons_succ, Option.getD, Option.map]
  exact ⟨hpc, (claim_C8_all_or_nothing sqrtW (fun _ _ _ _ => 0) (fun _ _ _ _ => 0)
    (fun _ _ _ _ => 0) (GrayImage.mk 1 1 fun _ _ => 0) 0 1 1 1 1).1 hpc⟩
